import Mathlib

/-!
Verification development for the validator core of the hone subnet repository.

Python floats are modelled as exact rationals, Python ints as integers,
Python lists as Lean lists, and fallible code (exceptions) as Except or
Option results.  Each definition is a shallow embedding of the function of
the same (or closely related) name in the source tree.
-/

namespace Hone

/-- Python round-half-to-even (the builtin round), on rationals. -/
def pyRound (q : ℚ) : ℤ :=
  let f : ℤ := ⌊q⌋
  let r : ℚ := q - f
  if r < 1/2 then f
  else if r > 1/2 then f + 1
  else if f % 2 = 0 then f else f + 1

/-- First index of the maximum element of a list, mirroring the Python
expression max(range(len(v)), key=lambda i: v[i]), which keeps the earliest
index among ties. -/
def argmaxIdx : List ℤ → ℕ
  | [] => 0
  | [_] => 0
  | x :: y :: ys =>
    let m := argmaxIdx (y :: ys)
    if (y :: ys).getD m 0 > x then m + 1 else 0

/-- U16_MAX from common/chain.py. -/
def U16_MAX : ℤ := 65535

/-- Embedding of common/chain.py _normalize_and_quantize_weights.
The error case models the raised ValueError. -/
def normalizeAndQuantizeWeights (node_ids : List ℤ) (node_weights : List ℚ) :
    Except String (List ℤ × List ℤ) :=
  if node_ids.length ≠ node_weights.length ∨ node_ids.any (fun u => u < 0)
      ∨ node_weights.any (fun w => w < 0) then
    .error "Invalid input: length mismatch or negative values"
  else if !(node_weights.any (fun w => w ≠ 0)) then
    .ok ([], [])
  else
    let total_weight : ℚ := node_weights.sum
    let scaling_factor : ℚ := (U16_MAX : ℚ) / total_weight
    let ticks : List ℤ :=
      node_weights.map (fun w => if w > 0 then pyRound (w * scaling_factor) else 0)
    let actual_sum : ℤ := ticks.sum
    let drift : ℤ := U16_MAX - actual_sum
    if drift ≠ 0 then
      let max_idx := argmaxIdx ticks
      .ok (node_ids, ticks.set max_idx (ticks.getD max_idx 0 + drift))
    else
      .ok (node_ids, ticks)

section PyRoundLemmas

theorem pyRound_nonneg {q : ℚ} (h : 0 ≤ q) : 0 ≤ pyRound q := by
  unfold pyRound
  have hf : (0:ℤ) ≤ ⌊q⌋ := by
    exact_mod_cast Int.le_floor.mpr (by exact_mod_cast h)
  dsimp only
  split
  · exact hf
  · split
    · omega
    · split
      · exact hf
      · omega

theorem pyRound_le_of_le {q : ℚ} {z : ℤ} (h : q ≤ z) : pyRound q ≤ z := by
  unfold pyRound
  have hfz : ⌊q⌋ ≤ z := Int.floor_le_floor (α := ℚ) h |>.trans_eq (Int.floor_intCast z)
  dsimp only
  split
  · exact hfz
  · rename_i h1
    have hr : (1:ℚ)/2 ≤ q - ⌊q⌋ := by linarith [not_lt.mp h1]
    have hlt : ⌊q⌋ < z := by
      by_contra hc
      have : ⌊q⌋ = z := le_antisymm hfz (not_lt.mp hc)
      have : q - ⌊q⌋ ≤ 0 := by
        rw [this]; linarith
      linarith
    split
    · omega
    · split
      · omega
      · omega

theorem pyRound_lt (q : ℚ) : (pyRound q : ℚ) < q + 1 := by
  unfold pyRound
  have h1 : (⌊q⌋ : ℚ) ≤ q := Int.floor_le q
  have h2 : q < ⌊q⌋ + 1 := Int.lt_floor_add_one q
  dsimp only
  split
  · linarith
  · rename_i hnot
    have hr : (1:ℚ)/2 ≤ q - ⌊q⌋ := by linarith [not_lt.mp hnot]
    split
    · push_cast; linarith
    · split
      · linarith
      · push_cast; linarith

end PyRoundLemmas

section ArgmaxLemmas

theorem argmaxIdx_lt_length : ∀ {l : List ℤ}, l ≠ [] → argmaxIdx l < l.length
  | [], h => absurd rfl h
  | [_], _ => by simp [argmaxIdx]
  | _ :: y :: ys, _ => by
    have ih := argmaxIdx_lt_length (l := y :: ys) (by simp)
    unfold argmaxIdx
    dsimp only
    split
    · simp only [List.length_cons] at ih ⊢
      omega
    · simp

theorem argmaxIdx_spec : ∀ (l : List ℤ) (j : ℕ),
    l.getD j 0 ≤ l.getD (argmaxIdx l) 0 ∨ l.length ≤ j
  | [], j => by right; simp
  | [x], j => by
    cases j with
    | zero => left; simp [argmaxIdx]
    | succ k => right; simp
  | x :: y :: ys, j => by
    have ih := argmaxIdx_spec (y :: ys)
    unfold argmaxIdx
    dsimp only
    split
    · rename_i hgt
      cases j with
      | zero =>
        left
        simpa using le_of_lt hgt
      | succ k =>
        rcases ih k with h | h
        · left; simpa using h
        · right
          simp only [List.length_cons] at h ⊢
          omega
    · rename_i hle
      have hle' : (y :: ys).getD (argmaxIdx (y :: ys)) 0 ≤ x := not_lt.mp hle
      cases j with
      | zero => left; simp
      | succ k =>
        rcases ih k with h | h
        · left
          simp only [List.getD_cons_succ, List.getD_cons_zero]
          exact h.trans hle'
        · right
          simp only [List.length_cons] at h ⊢
          omega

end ArgmaxLemmas

section ListHelpers

variable {α β : Type}

theorem list_sum_set [CommRing α] (l : List α) (i : ℕ) (x : α) (h : i < l.length) :
    (l.set i x).sum = l.sum - l.getD i 0 + x := by
  induction l generalizing i with
  | nil => simp at h
  | cons a as ih =>
    cases i with
    | zero => simp [List.set]; ring
    | succ k =>
      simp only [List.set, List.sum_cons, List.getD_cons_succ]
      have hk : k < as.length := by simpa using h
      rw [ih k hk]
      ring

theorem getD_mem_or [CommRing α] (l : List α) (i : ℕ) : l.getD i 0 ∈ l ∨ l.length ≤ i := by
  induction l generalizing i with
  | nil => right; simp
  | cons a as ih =>
    cases i with
    | zero => left; simp
    | succ k =>
      rcases ih k with h | h
      · left
        simp only [List.getD_cons_succ, List.mem_cons]
        exact Or.inr h
      · right; simpa using h

theorem single_le_sum_of_nonneg {l : List ℤ} (hnn : ∀ y ∈ l, 0 ≤ y)
    {x : ℤ} (hx : x ∈ l) : x ≤ l.sum := by
  induction l with
  | nil => simp at hx
  | cons a as ih =>
    simp only [List.sum_cons]
    rcases List.mem_cons.mp hx with rfl | hmem
    · have : 0 ≤ as.sum := List.sum_nonneg (fun y hy => hnn y (List.mem_cons_of_mem _ hy))
      linarith
    · have := ih (fun y hy => hnn y (List.mem_cons_of_mem _ hy)) hmem
      have : as.sum ≤ a + as.sum := by
        have := hnn a (List.mem_cons_self a as)
        linarith
      linarith [ih (fun y hy => hnn y (List.mem_cons_of_mem _ hy)) hmem]

theorem getD_set_ne [CommRing α] (l : List α) (i j : ℕ) (x : α) (h : i ≠ j) :
    (l.set i x).getD j 0 = l.getD j 0 := by
  induction l generalizing i j with
  | nil => simp
  | cons a as ih =>
    cases i with
    | zero =>
      cases j with
      | zero => exact absurd rfl h
      | succ k => simp [List.set]
    | succ m =>
      cases j with
      | zero => simp [List.set]
      | succ k =>
        simp only [List.set, List.getD_cons_succ]
        exact ih m k (fun he => h (by rw [he]))

theorem getD_set_self [CommRing α] (l : List α) (i : ℕ) (x : α) (h : i < l.length) :
    (l.set i x).getD i 0 = x := by
  induction l generalizing i with
  | nil => simp at h
  | cons a as ih =>
    cases i with
    | zero => simp [List.set]
    | succ k =>
      simp only [List.set, List.getD_cons_succ]
      exact ih k (by simpa using h)

theorem getD_map_int [CommRing α] [CommRing β] (f : α → β) (l : List α) (j : ℕ)
    (h : j < l.length) : (l.map f).getD j 0 = f (l.getD j 0) := by
  induction l generalizing j with
  | nil => simp at h
  | cons a as ih =>
    cases j with
    | zero => simp
    | succ k =>
      simp only [List.map_cons, List.getD_cons_succ]
      exact ih k (by simpa using h)

theorem mem_set_cases {l : List α} {i : ℕ} {x t : α} (h : t ∈ l.set i x) :
    t ∈ l ∨ t = x := by
  induction l generalizing i with
  | nil => simp [List.set] at h
  | cons a as ih =>
    cases i with
    | zero =>
      rcases List.mem_cons.mp h with rfl | hm
      · right; rfl
      · left; exact List.mem_cons_of_mem _ hm
    | succ k =>
      rcases List.mem_cons.mp h with rfl | hm
      · left; exact List.mem_cons_self _ _
      · rcases ih hm with h1 | h1
        · left; exact List.mem_cons_of_mem _ h1
        · right; exact h1

theorem single_le_sum_rat {l : List ℚ} (hnn : ∀ y ∈ l, 0 ≤ y)
    {x : ℚ} (hx : x ∈ l) : x ≤ l.sum := by
  induction l with
  | nil => simp at hx
  | cons a as ih =>
    simp only [List.sum_cons]
    have has : 0 ≤ as.sum := List.sum_nonneg (fun y hy => hnn y (List.mem_cons_of_mem _ hy))
    rcases List.mem_cons.mp hx with rfl | hmem
    · linarith
    · have := ih (fun y hy => hnn y (List.mem_cons_of_mem _ hy)) hmem
      have ha := hnn a (List.mem_cons_self a as)
      linarith

end ListHelpers

/-- The per-entry quantization step of _normalize_and_quantize_weights:
round(weight * scaling_factor) for positive weights, 0 otherwise. -/
def quantTick (total : ℚ) (w : ℚ) : ℤ :=
  if w > 0 then pyRound (w * ((U16_MAX : ℚ) / total)) else 0

section QuantizeLemmas

theorem quantTick_nonneg (total w : ℚ) (htot : 0 < total) : 0 ≤ quantTick total w := by
  unfold quantTick
  split
  · rename_i hw
    apply pyRound_nonneg
    have hscale : (0:ℚ) < (U16_MAX : ℚ) / total := by
      unfold U16_MAX; positivity
    exact le_of_lt (mul_pos hw hscale)
  · exact le_refl 0

theorem quantTick_le (total w : ℚ) (htot : 0 < total) (hw : w ≤ total) :
    quantTick total w ≤ U16_MAX := by
  unfold quantTick
  split
  · apply pyRound_le_of_le
    have hscale : (0:ℚ) < (U16_MAX : ℚ) / total := by
      unfold U16_MAX; positivity
    calc w * ((U16_MAX : ℚ) / total) ≤ total * ((U16_MAX : ℚ) / total) := by
          exact mul_le_mul_of_nonneg_right hw (le_of_lt hscale)
      _ = (U16_MAX : ℚ) := by
          field_simp
  · unfold U16_MAX; omega

end QuantizeLemmas

/-- Computation lemma: under valid inputs (equal lengths, no negatives, some
nonzero weight) _normalize_and_quantize_weights reduces to the rounded tick
vector with the drift added onto the first maximal tick. -/
theorem normalizeAndQuantize_eq (ids : List ℤ) (ws : List ℚ)
    (hlen : ids.length = ws.length)
    (hid : ∀ u ∈ ids, 0 ≤ u)
    (hw : ∀ w ∈ ws, 0 ≤ w)
    (hex : ∃ w ∈ ws, w ≠ 0) :
    normalizeAndQuantizeWeights ids ws =
      (let pre := ws.map (quantTick ws.sum)
       let drift := U16_MAX - pre.sum
       if drift ≠ 0 then
         .ok (ids, pre.set (argmaxIdx pre) (pre.getD (argmaxIdx pre) 0 + drift))
       else
         .ok (ids, pre)) := by
  have hg1 : ¬(ids.length ≠ ws.length ∨ ids.any (fun u => u < 0) ∨ ws.any (fun w => w < 0)) := by
    intro hcon
    rcases hcon with h | h | h
    · exact h hlen
    · rw [List.any_eq_true] at h
      obtain ⟨u, hu, hlt⟩ := h
      have := hid u hu
      simp only [decide_eq_true_eq] at hlt
      omega
    · rw [List.any_eq_true] at h
      obtain ⟨w, hwm, hlt⟩ := h
      have := hw w hwm
      simp only [decide_eq_true_eq] at hlt
      linarith
  have hg2 : ws.any (fun w => w ≠ 0) = true := by
    rw [List.any_eq_true]
    obtain ⟨w, hwmem, hwne⟩ := hex
    exact ⟨w, hwmem, by simpa using hwne⟩
  have hfun : (fun w => if w > 0 then pyRound (w * ((U16_MAX : ℚ) / ws.sum)) else 0)
      = quantTick ws.sum := by
    funext w; rfl
  unfold normalizeAndQuantizeWeights
  rw [if_neg hg1, if_neg (by rw [hg2]; decide)]
  simp only [hfun]

/-- Claim C2 (amended): for every commitWeights call with nonnegative weights
summing to 1 within 1e-6, the quantized ticks sum to exactly 65535, the uid
and tick lists keep the input length, every tick is at most 65535, every
entry other than the drift-absorbing one is nonnegative and equals its
rounded quantization, and the rounding drift is absorbed into the entry
holding the (first) maximum tick; that drift-adjusted entry itself can be
negative. -/
theorem commitWeights_quantization (ids : List ℤ) (ws : List ℚ)
    (hlen : ids.length = ws.length)
    (hid : ∀ u ∈ ids, 0 ≤ u)
    (hw : ∀ w ∈ ws, 0 ≤ w)
    (hsum : |ws.sum - 1| ≤ 1/1000000) :
    ∃ ticks : List ℤ,
      normalizeAndQuantizeWeights ids ws = .ok (ids, ticks) ∧
      ticks.length = ws.length ∧
      ids.length = ws.length ∧
      ticks.sum = U16_MAX ∧
      (∀ t ∈ ticks, t ≤ U16_MAX) ∧
      ∃ m < ticks.length,
        (∀ j < ticks.length, j ≠ m →
          0 ≤ ticks.getD j 0 ∧ ticks.getD j 0 = quantTick ws.sum (ws.getD j 0)) ∧
        (∀ j < ticks.length, quantTick ws.sum (ws.getD j 0) ≤ quantTick ws.sum (ws.getD m 0)) ∧
        ticks.getD m 0 =
          quantTick ws.sum (ws.getD m 0) + (U16_MAX - (ws.map (quantTick ws.sum)).sum) := by
  have htot : 0 < ws.sum := by
    have h := abs_le.mp hsum
    linarith [h.1]
  have hex : ∃ w ∈ ws, w ≠ 0 := by
    by_contra hc
    push_neg at hc
    have : ws.sum = 0 := List.sum_eq_zero hc
    linarith
  have heq := normalizeAndQuantize_eq ids ws hlen hid hw hex
  set pre : List ℤ := ws.map (quantTick ws.sum) with hpredef
  have hlenpre : pre.length = ws.length := by simp [hpredef]
  have hprenn : ∀ t ∈ pre, 0 ≤ t := by
    intro t ht
    rw [hpredef, List.mem_map] at ht
    obtain ⟨w, _, rfl⟩ := ht
    exact quantTick_nonneg _ _ htot
  have hprele : ∀ t ∈ pre, t ≤ U16_MAX := by
    intro t ht
    rw [hpredef, List.mem_map] at ht
    obtain ⟨w, hwm, rfl⟩ := ht
    exact quantTick_le _ _ htot (single_le_sum_rat hw hwm)
  have hwsne : ws ≠ [] := by
    obtain ⟨w, hwm, _⟩ := hex
    exact List.ne_nil_of_mem hwm
  have hprene : pre ≠ [] := by
    intro h
    have : pre.length = 0 := by rw [h]; rfl
    rw [hlenpre] at this
    exact hwsne (List.length_eq_zero.mp this)
  have hm : argmaxIdx pre < pre.length := argmaxIdx_lt_length hprene
  have hmax : ∀ j < pre.length, pre.getD j 0 ≤ pre.getD (argmaxIdx pre) 0 := by
    intro j hj
    rcases argmaxIdx_spec pre j with h | h
    · exact h
    · omega
  have hgetpre : ∀ j < ws.length, pre.getD j 0 = quantTick ws.sum (ws.getD j 0) := by
    intro j hj
    rw [hpredef]
    exact getD_map_int _ _ _ hj
  have hmsum : pre.getD (argmaxIdx pre) 0 ≤ pre.sum := by
    rcases getD_mem_or pre (argmaxIdx pre) with h | h
    · exact single_le_sum_of_nonneg hprenn h
    · omega
  by_cases hd : U16_MAX - pre.sum ≠ 0
  · -- drift correction is applied at the argmax position
    refine ⟨pre.set (argmaxIdx pre) (pre.getD (argmaxIdx pre) 0 + (U16_MAX - pre.sum)), ?_, ?_, hlen, ?_, ?_, ?_⟩
    · rw [heq]
      simp only [if_pos hd]
    · rw [List.length_set, hlenpre]
    · rw [list_sum_set _ _ _ hm]
      ring
    · intro t ht
      rcases mem_set_cases ht with h | h
      · exact hprele t h
      · rw [h]; omega
    · refine ⟨argmaxIdx pre, ?_, ?_, ?_, ?_⟩
      · rw [List.length_set]; exact hm
      · intro j hj hne
        rw [List.length_set, hlenpre] at hj
        have h1 : (pre.set (argmaxIdx pre) (pre.getD (argmaxIdx pre) 0 + (U16_MAX - pre.sum))).getD j 0
            = pre.getD j 0 := getD_set_ne _ _ _ _ (fun he => hne he.symm)
        rw [h1, hgetpre j hj]
        constructor
        · rw [← hgetpre j hj]
          rcases getD_mem_or pre j with h | h
          · exact hprenn _ h
          · omega
        · rfl
      · intro j hj
        rw [List.length_set, hlenpre] at hj
        rw [← hgetpre j hj, ← hgetpre (argmaxIdx pre) (by omega)]
        exact hmax j (by omega)
      · rw [getD_set_self _ _ _ hm, hgetpre (argmaxIdx pre) (by omega)]
  · -- no drift: ticks are returned unchanged
    push_neg at hd
    refine ⟨pre, ?_, hlenpre, hlen, ?_, hprele, ?_⟩
    · rw [heq]
      simp only [if_neg (by omega : ¬ U16_MAX - pre.sum ≠ 0)]
    · omega
    · refine ⟨argmaxIdx pre, hm, ?_, ?_, ?_⟩
      · intro j hj hne
        rw [hlenpre] at hj
        rw [hgetpre j hj]
        refine ⟨?_, rfl⟩
        rw [← hgetpre j hj]
        rcases getD_mem_or pre j with h | h
        · exact hprenn _ h
        · omega
      · intro j hj
        rw [hlenpre] at hj
        rw [← hgetpre j hj, ← hgetpre (argmaxIdx pre) (by omega)]
        exact hmax j (by omega)
      · rw [hgetpre (argmaxIdx pre) (by omega)]
        omega

theorem argmaxIdx_replicate (n : ℕ) (x : ℤ) : argmaxIdx (List.replicate n x) = 0 := by
  induction n with
  | zero => rfl
  | succ k ih =>
    cases k with
    | zero => rfl
    | succ j =>
      show argmaxIdx (x :: x :: List.replicate j x) = 0
      have ih' : argmaxIdx (x :: List.replicate j x) = 0 := by
        simpa [List.replicate_succ] using ih
      unfold argmaxIdx
      dsimp only
      rw [ih']
      simp

/-- Claim C2 counterexample: 424 equal weights 1/424 satisfy the claimed
preconditions (nonnegative, sum exactly 1), yet the quantizer rounds every
entry up to 155, leaving sum 65720, so the drift -185 pushes the first
(argmax) tick to -30, outside [0, 65535]. -/
theorem commitWeights_quantization_counterexample :
    (∀ w ∈ List.replicate 424 ((1:ℚ)/424), 0 ≤ w) ∧
    |(List.replicate 424 ((1:ℚ)/424)).sum - 1| ≤ 1/1000000 ∧
    normalizeAndQuantizeWeights ((List.range 424).map Int.ofNat)
        (List.replicate 424 ((1:ℚ)/424))
      = .ok ((List.range 424).map Int.ofNat,
             (-30 : ℤ) :: List.replicate 423 155) ∧
    (-30 : ℤ) ∈ ((-30 : ℤ) :: List.replicate 423 (155:ℤ)) ∧ ¬ (0 ≤ (-30 : ℤ)) := by
  have hsum : (List.replicate 424 ((1:ℚ)/424)).sum = 1 := by
    rw [List.sum_replicate]
    norm_num
  have hfloor : ⌊(65535/424 : ℚ)⌋ = 154 := by
    rw [Int.floor_eq_iff]
    norm_num
  have htick : quantTick 1 ((1:ℚ)/424) = 155 := by
    have h1 : ((1:ℚ)/424) * ((U16_MAX:ℚ)/1) = 65535/424 := by
      norm_num [U16_MAX]
    unfold quantTick
    rw [if_pos (by norm_num : ((1:ℚ)/424) > 0), h1]
    simp only [pyRound, hfloor]
    norm_num
  have hlen424 : ((List.range 424).map Int.ofNat).length
      = (List.replicate 424 ((1:ℚ)/424)).length := by
    rw [List.length_map, List.length_range, List.length_replicate]
  have hid424 : ∀ u ∈ (List.range 424).map Int.ofNat, 0 ≤ u := by
    intro u hu
    rw [List.mem_map] at hu
    obtain ⟨n, _, rfl⟩ := hu
    exact Int.ofNat_nonneg n
  have hw424 : ∀ w ∈ List.replicate 424 ((1:ℚ)/424), 0 ≤ w := by
    intro w hwm
    rw [List.eq_of_mem_replicate hwm]
    norm_num
  have hex424 : ∃ w ∈ List.replicate 424 ((1:ℚ)/424), w ≠ 0 :=
    ⟨(1:ℚ)/424, List.mem_replicate.mpr ⟨by norm_num, rfl⟩, by norm_num⟩
  refine ⟨hw424, by rw [hsum]; norm_num, ?_, List.mem_cons_self _ _, by norm_num⟩
  rw [normalizeAndQuantize_eq _ _ hlen424 hid424 hw424 hex424, hsum]
  simp only [List.map_replicate, htick, List.sum_replicate]
  rw [show (424 • (155:ℤ)) = 65720 by rw [nsmul_eq_mul]; norm_num]
  rw [if_pos (by decide : ¬((U16_MAX - (65720:ℤ)) = 0))]
  rw [argmaxIdx_replicate]
  have hgetd : (List.replicate 424 (155:ℤ)).getD 0 0 = 155 := rfl
  rw [hgetd]
  rw [show (155 + (U16_MAX - (65720:ℤ)) : ℤ) = -30 by decide]
  rfl

/-! ## validator/scoring.py: weight-vector construction -/

/-- Embedding of validator/scoring.py _validate_scores; the scores dict is
modelled as an association list in insertion order. -/
def validateScores (scores : List (ℤ × ℚ)) : Bool :=
  if scores.isEmpty then false
  else if scores.any (fun p => p.2 < 0) then false
  else if (scores.map Prod.snd).sum ≤ 0 then false
  else true

/-- Python list item assignment w[i] = v, including the negative-index wrap;
none models the raised IndexError. -/
def pySet (l : List ℚ) (i : ℤ) (v : ℚ) : Option (List ℚ) :=
  if 0 ≤ i ∧ i < l.length then some (l.set i.toNat v)
  else if -(l.length : ℤ) ≤ i ∧ i < 0 then some (l.set (l.length + i).toNat v)
  else none

/-- Sequential Python list assignments, one per (uid, value) pair. -/
def pySetAll (l : List ℚ) : List (ℤ × ℚ) → Option (List ℚ)
  | [] => some l
  | (u, v) :: rest =>
    match pySet l u v with
    | none => none
    | some l2 => pySetAll l2 rest

/-- Result of the weight-vector construction in validator/scoring.py
set_weights.  indexError: an IndexError escapes before any submission;
zeroDivError: dividing by a zero weight sum during renormalization;
cannotSet: the function returns False before reaching the submission;
weights w: the vector that is handed on to chain.set_weights. -/
inductive AllocResult
  | indexError
  | zeroDivError
  | cannotSet
  | weights (w : List ℚ)
  deriving DecidableEq

/-- Python abs on rationals, written so that it evaluates by reduction. -/
def pyAbs (q : ℚ) : ℚ := if q < 0 then -q else q

theorem pyAbs_eq_abs (q : ℚ) : pyAbs q = |q| := by
  unfold pyAbs
  split
  · rename_i h
    rw [abs_of_neg h]
  · rename_i h
    rw [abs_of_nonneg (not_lt.mp h)]

/-- The renormalization step of validator/scoring.py set_weights: divide by
the sum when it differs from 1 by more than 1e-6. -/
def renormalize (w : List ℚ) : AllocResult :=
  let s := w.sum
  if pyAbs (s - 1) > 1/1000000 then
    if s = 0 then .zeroDivError else .weights (w.map (fun x => x / s))
  else .weights w

/-- Embedding of validator/scoring.py set_weights (weight-vector
construction): burn uid, burn percentage, subnet size N and the scores dict
as an association list in insertion order. -/
def setWeightsVector (bUid : ℤ) (bPct : ℚ) (N : ℕ) (scores : List (ℤ × ℚ)) :
    AllocResult :=
  let base : List ℚ := List.replicate N 0
  if !(validateScores scores) then
    if bPct > 0 then
      match pySet base bUid 1 with
      | none => .indexError
      | some w => renormalize w
    else .cannotSet
  else
    if bPct > 0 then
      let total : ℚ := (scores.map Prod.snd).sum
      if total > 0 then
        match pySet base bUid bPct with
        | none => .indexError
        | some w0 =>
          match pySetAll w0 (scores.map (fun p => (p.1, p.2 / total * (1 - bPct)))) with
          | none => .indexError
          | some w => renormalize w
      else
        match pySet base bUid 1 with
        | none => .indexError
        | some w => renormalize w
    else
      let total : ℚ := (scores.map Prod.snd).sum
      if total > 0 then
        match pySetAll base (scores.map (fun p => (p.1, p.2 / total))) with
        | none => .indexError
        | some w => renormalize w
      else .cannotSet

section PySetLemmas

theorem pySet_inrange (l : List ℚ) (i : ℤ) (v : ℚ) (h0 : 0 ≤ i) (h1 : i < l.length) :
    pySet l i v = some (l.set i.toNat v) := by
  unfold pySet
  rw [if_pos ⟨h0, h1⟩]

theorem pySet_oob (l : List ℚ) (i : ℤ) (v : ℚ) (h : (l.length : ℤ) ≤ i) :
    pySet l i v = none := by
  unfold pySet
  rw [if_neg (by omega), if_neg (by omega)]

theorem pySetAll_ok (entries : List (ℤ × ℚ)) (l : List ℚ)
    (h : ∀ p ∈ entries, 0 ≤ p.1 ∧ p.1 < l.length) :
    ∃ w, pySetAll l entries = some w ∧ w.length = l.length := by
  induction entries generalizing l with
  | nil => exact ⟨l, rfl, rfl⟩
  | cons p rest ih =>
    obtain ⟨hp0, hp1⟩ := h p (List.mem_cons_self _ _)
    obtain ⟨w, hw, hwl⟩ := ih (l.set p.1.toNat p.2)
      (by
        intro q hq
        have := h q (List.mem_cons_of_mem _ hq)
        simpa using this)
    refine ⟨w, ?_, by simpa using hwl⟩
    show pySetAll l ((p.1, p.2) :: rest) = some w
    unfold pySetAll
    rw [pySet_inrange _ _ _ hp0 hp1]
    exact hw

theorem pySetAll_none_of_oob (entries : List (ℤ × ℚ)) (l : List ℚ)
    (hnn : ∀ p ∈ entries, 0 ≤ p.1)
    (hoob : ∃ p ∈ entries, (l.length : ℤ) ≤ p.1) :
    pySetAll l entries = none := by
  induction entries generalizing l with
  | nil => obtain ⟨p, hp, _⟩ := hoob; simp at hp
  | cons p rest ih =>
    by_cases hp : (l.length : ℤ) ≤ p.1
    · show pySetAll l ((p.1, p.2) :: rest) = none
      unfold pySetAll
      rw [pySet_oob _ _ _ hp]
    · have hp0 := hnn p (List.mem_cons_self _ _)
      have hrest : ∃ q ∈ rest, (l.length : ℤ) ≤ q.1 := by
        obtain ⟨q, hq, hql⟩ := hoob
        rcases List.mem_cons.mp hq with rfl | hq2
        · exact absurd hql hp
        · exact ⟨q, hq2, hql⟩
      show pySetAll l ((p.1, p.2) :: rest) = none
      unfold pySetAll
      rw [pySet_inrange _ _ _ hp0 (by omega)]
      apply ih
      · exact fun q hq => hnn q (List.mem_cons_of_mem _ hq)
      · simpa using hrest

theorem pySetAll_getD_not_mem (entries : List (ℤ × ℚ)) (l w : List ℚ) (j : ℕ)
    (hnn : ∀ p ∈ entries, 0 ≤ p.1)
    (hne : ∀ p ∈ entries, p.1 ≠ (j : ℤ))
    (hw : pySetAll l entries = some w) :
    w.getD j 0 = l.getD j 0 := by
  induction entries generalizing l with
  | nil =>
    simp only [pySetAll] at hw
    cases hw
    rfl
  | cons p rest ih =>
    show w.getD j 0 = l.getD j 0
    rw [show pySetAll l (p :: rest) = pySetAll l ((p.1, p.2) :: rest) by rfl] at hw
    unfold pySetAll at hw
    cases hps : pySet l p.1 p.2 with
    | none => rw [hps] at hw; cases hw
    | some l2 =>
      rw [hps] at hw
      have h2 : w.getD j 0 = l2.getD j 0 :=
        ih l2 (fun q hq => hnn q (List.mem_cons_of_mem _ hq))
           (fun q hq => hne q (List.mem_cons_of_mem _ hq)) hw
      rw [h2]
      -- the head assignment touches an index other than j
      unfold pySet at hps
      split at hps
      · rename_i hcond
        cases hps
        apply getD_set_ne
        have := hne p (List.mem_cons_self _ _)
        omega
      · split at hps
        · rename_i hcond2
          cases hps
          apply getD_set_ne
          have := hnn p (List.mem_cons_self _ _)
          omega
        · cases hps

theorem pySetAll_getD_mem (entries : List (ℤ × ℚ)) (l w : List ℚ)
    (hnodup : (entries.map Prod.fst).Nodup)
    (hrange : ∀ p ∈ entries, 0 ≤ p.1 ∧ p.1 < l.length)
    (hw : pySetAll l entries = some w)
    {u : ℤ} {v : ℚ} (hmem : (u, v) ∈ entries) :
    w.getD u.toNat 0 = v := by
  induction entries generalizing l with
  | nil => simp at hmem
  | cons p rest ih =>
    obtain ⟨hp0, hp1⟩ := hrange p (List.mem_cons_self _ _)
    rw [show pySetAll l (p :: rest) = pySetAll l ((p.1, p.2) :: rest) by rfl] at hw
    unfold pySetAll at hw
    rw [pySet_inrange _ _ _ hp0 hp1] at hw
    rcases List.mem_cons.mp hmem with heq | hmem2
    · -- the head pair: its key does not occur among the remaining keys
      have hu1 : p.1 = u := congrArg Prod.fst heq.symm
      have hu2 : p.2 = v := congrArg Prod.snd heq.symm
      have hu0 : 0 ≤ u := hu1 ▸ hp0
      have hnotin : ∀ q ∈ rest, q.1 ≠ (u.toNat : ℤ) := by
        intro q hq hqe
        have hn := (List.nodup_cons.mp hnodup).1
        apply hn
        rw [List.mem_map]
        refine ⟨q, hq, ?_⟩
        rw [hu1]
        omega
      have hkeep := pySetAll_getD_not_mem rest (l.set p.1.toNat p.2) w u.toNat
        (fun q hq => (hrange q (List.mem_cons_of_mem _ hq)).1) hnotin hw
      rw [hkeep, ← hu1, ← hu2]
      apply getD_set_self
      omega
    · -- the pair is further down the list
      apply ih (l.set p.1.toNat p.2) (List.nodup_cons.mp hnodup).2
        (by
          intro q hq
          have := hrange q (List.mem_cons_of_mem _ hq)
          simpa using this)
        hw hmem2

end PySetLemmas

section SumLemmas

theorem getD_replicate_zero (n j : ℕ) : (List.replicate n (0:ℚ)).getD j 0 = 0 := by
  induction n generalizing j with
  | zero => simp
  | succ k ih =>
    cases j with
    | zero => simp [List.replicate_succ]
    | succ m =>
      rw [List.replicate_succ]
      simpa using ih m

theorem sum_replicate_zero (n : ℕ) : (List.replicate n (0:ℚ)).sum = 0 := by
  rw [List.sum_replicate, smul_zero]

theorem sum_map_ite_key (keys : List ℤ) (b : ℤ) (c : ℚ)
    (hnodup : keys.Nodup) (hmem : b ∈ keys) :
    (keys.map (fun k => if k = b then c else 0)).sum = c := by
  induction keys with
  | nil => simp at hmem
  | cons k ks ih =>
    rcases List.mem_cons.mp hmem with rfl | hm
    · simp only [List.map_cons, List.sum_cons]
      have hz : ∀ x ∈ ks.map (fun j => if j = b then c else 0), x = 0 := by
        intro x hx
        rw [List.mem_map] at hx
        obtain ⟨k2, hk2, rfl⟩ := hx
        rw [if_neg]
        intro he
        exact (List.nodup_cons.mp hnodup).1 (he ▸ hk2)
      rw [List.sum_eq_zero hz]
      simp
    · have hkb : k ≠ b := by
        intro he
        exact (List.nodup_cons.mp hnodup).1 (he ▸ hm)
      simp only [List.map_cons, List.sum_cons, if_neg hkb]
      rw [ih (List.nodup_cons.mp hnodup).2 hm]
      ring

theorem sum_map_div_mul (scores : List (ℤ × ℚ)) (T R : ℚ) :
    (scores.map (fun p => p.2 / T * R)).sum = (scores.map Prod.snd).sum / T * R := by
  induction scores with
  | nil => simp
  | cons p ps ih =>
    simp only [List.map_cons, List.sum_cons, ih]
    ring

theorem pySetAll_sum (entries : List (ℤ × ℚ)) (l w : List ℚ)
    (hnodup : (entries.map Prod.fst).Nodup)
    (hrange : ∀ p ∈ entries, 0 ≤ p.1 ∧ p.1 < l.length)
    (hw : pySetAll l entries = some w) :
    w.sum = l.sum - (entries.map (fun p => l.getD p.1.toNat 0)).sum
      + (entries.map Prod.snd).sum := by
  induction entries generalizing l with
  | nil =>
    simp only [pySetAll] at hw
    cases hw
    simp
  | cons p rest ih =>
    obtain ⟨hp0, hp1⟩ := hrange p (List.mem_cons_self _ _)
    rw [show pySetAll l (p :: rest) = pySetAll l ((p.1, p.2) :: rest) by rfl] at hw
    unfold pySetAll at hw
    rw [pySet_inrange _ _ _ hp0 hp1] at hw
    have hrest := ih (l.set p.1.toNat p.2) (List.nodup_cons.mp hnodup).2
      (by
        intro q hq
        have := hrange q (List.mem_cons_of_mem _ hq)
        simpa using this)
      hw
    have hcongr : rest.map (fun q => (l.set p.1.toNat p.2).getD q.1.toNat 0)
        = rest.map (fun q => l.getD q.1.toNat 0) := by
      apply List.map_congr_left
      intro q hq
      apply getD_set_ne
      have hq0 := (hrange q (List.mem_cons_of_mem _ hq)).1
      have hqp : q.1 ≠ p.1 := by
        intro he
        exact (List.nodup_cons.mp hnodup).1
          (List.mem_map.mpr ⟨q, hq, he⟩)
      omega
    have hset : (l.set p.1.toNat p.2).sum = l.sum - l.getD p.1.toNat 0 + p.2 :=
      list_sum_set _ _ _ (by omega)
    rw [hrest, hcongr, hset]
    simp only [List.map_cons, List.sum_cons]
    ring

theorem validateScores_true_iff (scores : List (ℤ × ℚ)) :
    validateScores scores = true ↔
      scores ≠ [] ∧ (∀ p ∈ scores, 0 ≤ p.2) ∧ 0 < (scores.map Prod.snd).sum := by
  unfold validateScores
  constructor
  · intro h
    split at h
    · cases h
    · rename_i hne
      split at h
      · cases h
      · rename_i hneg
        split at h
        · cases h
        · rename_i hsum
          refine ⟨by simpa [List.isEmpty_iff] using hne, ?_, by linarith [not_le.mp hsum]⟩
          intro p hp
          by_contra hc
          exact hneg (List.any_eq_true.mpr ⟨p, hp, by simpa using not_le.mp hc⟩)
  · rintro ⟨hne, hnn, hpos⟩
    rw [if_neg (by simpa [List.isEmpty_iff] using hne)]
    rw [if_neg]
    · rw [if_neg (by linarith)]
    · intro hc
      rw [List.any_eq_true] at hc
      obtain ⟨p, hp, hlt⟩ := hc
      simp only [decide_eq_true_eq] at hlt
      linarith [hnn p hp]

end SumLemmas

section SetWeightsLemmas

theorem renormalize_sum_one {w : List ℚ} (h : w.sum = 1) : renormalize w = .weights w := by
  show (if pyAbs (w.sum - 1) > 1/1000000 then
          (if w.sum = 0 then AllocResult.zeroDivError
           else .weights (w.map (fun x => x / w.sum)))
        else .weights w) = _
  rw [if_neg]
  rw [h, pyAbs_eq_abs]
  norm_num

theorem renormalize_div {w : List ℚ} (h : |w.sum - 1| > 1/1000000) (h0 : w.sum ≠ 0) :
    renormalize w = .weights (w.map (fun x => x / w.sum)) := by
  show (if pyAbs (w.sum - 1) > 1/1000000 then
          (if w.sum = 0 then AllocResult.zeroDivError
           else .weights (w.map (fun x => x / w.sum)))
        else .weights w) = _
  rw [pyAbs_eq_abs, if_pos h, if_neg h0]

theorem setWeightsVector_invalid_eq (bUid : ℤ) (bPct : ℚ) (N : ℕ)
    (scores : List (ℤ × ℚ)) (w1 : List ℚ)
    (hinv : validateScores scores = false) (hb : 0 < bPct)
    (hset : pySet (List.replicate N 0) bUid 1 = some w1) :
    setWeightsVector bUid bPct N scores = renormalize w1 := by
  unfold setWeightsVector
  rw [hinv]
  rw [if_pos (by decide : ((!false : Bool) : Prop))]
  rw [if_pos hb]
  simp only [hset]

theorem setWeightsVector_invalid_idx (bUid : ℤ) (bPct : ℚ) (N : ℕ)
    (scores : List (ℤ × ℚ))
    (hinv : validateScores scores = false) (hb : 0 < bPct)
    (hset : pySet (List.replicate N 0) bUid 1 = none) :
    setWeightsVector bUid bPct N scores = .indexError := by
  unfold setWeightsVector
  rw [hinv]
  rw [if_pos (by decide : ((!false : Bool) : Prop))]
  rw [if_pos hb]
  simp only [hset]

theorem setWeightsVector_valid_pos_eq (bUid : ℤ) (bPct : ℚ) (N : ℕ)
    (scores : List (ℤ × ℚ)) (w0 w : List ℚ)
    (hval : validateScores scores = true) (hb : 0 < bPct)
    (hpos : 0 < (scores.map Prod.snd).sum)
    (hset : pySet (List.replicate N 0) bUid bPct = some w0)
    (hall : pySetAll w0
        (scores.map (fun p => (p.1, p.2 / (scores.map Prod.snd).sum * (1 - bPct))))
      = some w) :
    setWeightsVector bUid bPct N scores = renormalize w := by
  unfold setWeightsVector
  rw [hval]
  rw [if_neg (by decide : ¬ ((!true : Bool) : Prop))]
  rw [if_pos hb, if_pos hpos]
  simp only [hset, hall]

theorem setWeightsVector_valid_pos_idx0 (bUid : ℤ) (bPct : ℚ) (N : ℕ)
    (scores : List (ℤ × ℚ))
    (hval : validateScores scores = true) (hb : 0 < bPct)
    (hpos : 0 < (scores.map Prod.snd).sum)
    (hset : pySet (List.replicate N 0) bUid bPct = none) :
    setWeightsVector bUid bPct N scores = .indexError := by
  unfold setWeightsVector
  rw [hval]
  rw [if_neg (by decide : ¬ ((!true : Bool) : Prop))]
  rw [if_pos hb, if_pos hpos]
  simp only [hset]

theorem setWeightsVector_valid_pos_idx (bUid : ℤ) (bPct : ℚ) (N : ℕ)
    (scores : List (ℤ × ℚ)) (w0 : List ℚ)
    (hval : validateScores scores = true) (hb : 0 < bPct)
    (hpos : 0 < (scores.map Prod.snd).sum)
    (hset : pySet (List.replicate N 0) bUid bPct = some w0)
    (hall : pySetAll w0
        (scores.map (fun p => (p.1, p.2 / (scores.map Prod.snd).sum * (1 - bPct))))
      = none) :
    setWeightsVector bUid bPct N scores = .indexError := by
  unfold setWeightsVector
  rw [hval]
  rw [if_neg (by decide : ¬ ((!true : Bool) : Prop))]
  rw [if_pos hb, if_pos hpos]
  simp only [hset, hall]

/-- Claim C4 (amended): weight allocation in set_weights.  Starting from a
zero vector of length N (with burn enabled, in-range uids and distinct
scored uids): if validation fails (empty map, negative score or
nonpositive total) the burn uid gets weight 1 and the rest stay 0.
Otherwise the burn entry is first ASSIGNED the burn percentage and each
scored uid then has its entry assigned (s/T)(1-BURN); when the burn uid is
not among the scored uids the sum is already 1 and the vector is returned
as is, but when the burn uid IS scored, the loop OVERWRITES the burn entry
(so the burn share is not added on top), and the renormalization that
follows rescales the vector to the pure score proportions s/T: the burn
share is lost entirely. -/
theorem setWeights_burn_allocation (bUid : ℤ) (bPct : ℚ) (N : ℕ)
    (scores : List (ℤ × ℚ))
    (hb0 : 1/1000000 < bPct) (hb1 : bPct < 1)
    (hu0 : 0 ≤ bUid) (hu1 : bUid < N)
    (hkeys : ∀ p ∈ scores, 0 ≤ p.1 ∧ p.1 < N)
    (hnodup : (scores.map Prod.fst).Nodup) :
    (validateScores scores = false →
      setWeightsVector bUid bPct N scores
        = .weights ((List.replicate N (0:ℚ)).set bUid.toNat 1)) ∧
    (validateScores scores = true → bUid ∉ scores.map Prod.fst →
      ∃ w, setWeightsVector bUid bPct N scores = .weights w ∧
        w.length = N ∧ w.sum = 1 ∧
        w.getD bUid.toNat 0 = bPct ∧
        (∀ p ∈ scores, w.getD p.1.toNat 0
            = p.2 / (scores.map Prod.snd).sum * (1 - bPct)) ∧
        (∀ j < N, (j:ℤ) ≠ bUid → (j:ℤ) ∉ scores.map Prod.fst → w.getD j 0 = 0)) ∧
    (validateScores scores = true → bUid ∈ scores.map Prod.fst →
      ∃ w, setWeightsVector bUid bPct N scores = .weights w ∧
        w.length = N ∧
        (∀ p ∈ scores, w.getD p.1.toNat 0 = p.2 / (scores.map Prod.snd).sum) ∧
        (∀ j < N, (j:ℤ) ∉ scores.map Prod.fst → w.getD j 0 = 0)) := by
  have hb : 0 < bPct := by linarith
  have hbase : (List.replicate N (0:ℚ)).length = N := List.length_replicate _ _
  have hun : bUid.toNat < N := by omega
  refine ⟨?_, ?_, ?_⟩
  · -- invalid scores: everything goes to the burn uid
    intro hinv
    rw [setWeightsVector_invalid_eq _ _ _ _ _ hinv hb (pySet_inrange _ _ _ hu0 (by omega))]
    apply renormalize_sum_one
    rw [list_sum_set _ _ _ (by omega), sum_replicate_zero, getD_replicate_zero]
    ring
  · -- valid scores, burn uid not among the scored uids
    intro hval hnotmem
    obtain ⟨hne, hnn, hpos⟩ := (validateScores_true_iff scores).mp hval
    have hentkeys :
        (scores.map (fun p => (p.1, p.2 / (scores.map Prod.snd).sum * (1 - bPct)))).map Prod.fst
          = scores.map Prod.fst := by
      rw [List.map_map]
      apply List.map_congr_left
      intro p _
      rfl
    have hw0len : ((List.replicate N (0:ℚ)).set bUid.toNat bPct).length = N := by
      rw [List.length_set, hbase]
    have hrange_ent : ∀ q : ℤ × ℚ, q ∈ scores.map
        (fun p => (p.1, p.2 / (scores.map Prod.snd).sum * (1 - bPct))) →
        0 ≤ q.1 ∧ q.1 < (((List.replicate N (0:ℚ)).set bUid.toNat bPct).length : ℤ) := by
      intro q hq
      rw [List.mem_map] at hq
      obtain ⟨p, hp, rfl⟩ := hq
      have := hkeys p hp
      rw [hw0len]
      exact this
    obtain ⟨w, hw, hwlen⟩ := pySetAll_ok _ _ hrange_ent
    rw [setWeightsVector_valid_pos_eq _ _ _ _ _ _ hval hb hpos
      (pySet_inrange _ _ _ hu0 (by omega)) hw]
    have hkeyne : ∀ q ∈ scores.map
        (fun p => (p.1, p.2 / (scores.map Prod.snd).sum * (1 - bPct))), q.1 ≠ (bUid.toNat : ℤ) := by
      intro q hq
      rw [List.mem_map] at hq
      obtain ⟨p, hp, rfl⟩ := hq
      intro he
      apply hnotmem
      rw [List.mem_map]
      exact ⟨p, hp, by omega⟩
    have hw0sum : ((List.replicate N (0:ℚ)).set bUid.toNat bPct).sum = bPct := by
      rw [list_sum_set _ _ _ (by omega), sum_replicate_zero, getD_replicate_zero]
      ring
    have hmid : ((scores.map
        (fun p => (p.1, p.2 / (scores.map Prod.snd).sum * (1 - bPct)))).map
          (fun q => ((List.replicate N (0:ℚ)).set bUid.toNat bPct).getD q.1.toNat 0)).sum
        = 0 := by
      apply List.sum_eq_zero
      intro x hx
      rw [List.mem_map] at hx
      obtain ⟨q, hq, rfl⟩ := hx
      rw [List.mem_map] at hq
      obtain ⟨p, hp, rfl⟩ := hq
      have hp1 := (hkeys p hp).1
      have hpb : p.1 ≠ bUid := by
        intro he
        apply hnotmem
        rw [List.mem_map]
        exact ⟨p, hp, he⟩
      rw [getD_set_ne _ _ _ _ (by omega), getD_replicate_zero]
    have hvals : ((scores.map
        (fun p => (p.1, p.2 / (scores.map Prod.snd).sum * (1 - bPct)))).map Prod.snd).sum
        = 1 - bPct := by
      rw [List.map_map]
      have : (Prod.snd ∘ fun p : ℤ × ℚ => (p.1, p.2 / (scores.map Prod.snd).sum * (1 - bPct)))
          = fun p : ℤ × ℚ => p.2 / (scores.map Prod.snd).sum * (1 - bPct) := rfl
      rw [this, sum_map_div_mul, div_self (ne_of_gt hpos), one_mul]
    have hsumw : w.sum = 1 := by
      rw [pySetAll_sum _ _ _ (by rw [hentkeys]; exact hnodup) hrange_ent hw,
        hw0sum, hmid, hvals]
      ring
    refine ⟨w, renormalize_sum_one hsumw, by rw [hwlen, hw0len], hsumw, ?_, ?_, ?_⟩
    · rw [pySetAll_getD_not_mem _ _ _ _
        (fun q hq => (hrange_ent q hq).1) hkeyne hw]
      apply getD_set_self
      omega
    · intro p hp
      apply pySetAll_getD_mem _ _ _ (by rw [hentkeys]; exact hnodup) hrange_ent hw
      rw [List.mem_map]
      exact ⟨p, hp, rfl⟩
    · intro j hj hjb hjnot
      have hne2 : ∀ q ∈ scores.map
          (fun p => (p.1, p.2 / (scores.map Prod.snd).sum * (1 - bPct))), q.1 ≠ (j : ℤ) := by
        intro q hq
        rw [List.mem_map] at hq
        obtain ⟨p, hp, rfl⟩ := hq
        intro he
        apply hjnot
        rw [List.mem_map]
        exact ⟨p, hp, he⟩
      rw [pySetAll_getD_not_mem _ _ _ _
        (fun q hq => (hrange_ent q hq).1) hne2 hw]
      rw [getD_set_ne _ _ _ _ (by omega), getD_replicate_zero]
  · -- valid scores, burn uid among the scored uids: the burn share is lost
    intro hval hmem
    obtain ⟨hne, hnn, hpos⟩ := (validateScores_true_iff scores).mp hval
    have hentkeys :
        (scores.map (fun p => (p.1, p.2 / (scores.map Prod.snd).sum * (1 - bPct)))).map Prod.fst
          = scores.map Prod.fst := by
      rw [List.map_map]
      apply List.map_congr_left
      intro p _
      rfl
    have hw0len : ((List.replicate N (0:ℚ)).set bUid.toNat bPct).length = N := by
      rw [List.length_set, hbase]
    have hrange_ent : ∀ q : ℤ × ℚ, q ∈ scores.map
        (fun p => (p.1, p.2 / (scores.map Prod.snd).sum * (1 - bPct))) →
        0 ≤ q.1 ∧ q.1 < (((List.replicate N (0:ℚ)).set bUid.toNat bPct).length : ℤ) := by
      intro q hq
      rw [List.mem_map] at hq
      obtain ⟨p, hp, rfl⟩ := hq
      have := hkeys p hp
      rw [hw0len]
      exact this
    obtain ⟨w, hw, hwlen⟩ := pySetAll_ok _ _ hrange_ent
    rw [setWeightsVector_valid_pos_eq _ _ _ _ _ _ hval hb hpos
      (pySet_inrange _ _ _ hu0 (by omega)) hw]
    have hw0sum : ((List.replicate N (0:ℚ)).set bUid.toNat bPct).sum = bPct := by
      rw [list_sum_set _ _ _ (by omega), sum_replicate_zero, getD_replicate_zero]
      ring
    have hmid : ((scores.map
        (fun p => (p.1, p.2 / (scores.map Prod.snd).sum * (1 - bPct)))).map
          (fun q => ((List.replicate N (0:ℚ)).set bUid.toNat bPct).getD q.1.toNat 0)).sum
        = bPct := by
      have hcongr : (scores.map
          (fun p => (p.1, p.2 / (scores.map Prod.snd).sum * (1 - bPct)))).map
            (fun q => ((List.replicate N (0:ℚ)).set bUid.toNat bPct).getD q.1.toNat 0)
          = (scores.map
              (fun p => (p.1, p.2 / (scores.map Prod.snd).sum * (1 - bPct)))).map
            (fun q => if q.1 = bUid then bPct else 0) := by
        apply List.map_congr_left
        intro q hq
        rw [List.mem_map] at hq
        obtain ⟨p, hp, rfl⟩ := hq
        dsimp only
        by_cases hqb : p.1 = bUid
        · rw [if_pos hqb, hqb]
          apply getD_set_self
          omega
        · have hp1 := (hkeys p hp).1
          rw [if_neg hqb, getD_set_ne _ _ _ _ (by omega), getD_replicate_zero]
      rw [hcongr, List.map_map]
      have hcomp : ((fun k => if k = bUid then bPct else 0) ∘ Prod.fst)
          = ((fun q : ℤ × ℚ => if q.1 = bUid then bPct else 0)
              ∘ (fun p : ℤ × ℚ => (p.1, p.2 / (scores.map Prod.snd).sum * (1 - bPct)))) := rfl
      rw [← hcomp, ← List.map_map]
      exact sum_map_ite_key _ _ _ hnodup hmem
    have hvals : ((scores.map
        (fun p => (p.1, p.2 / (scores.map Prod.snd).sum * (1 - bPct)))).map Prod.snd).sum
        = 1 - bPct := by
      rw [List.map_map]
      have : (Prod.snd ∘ fun p : ℤ × ℚ => (p.1, p.2 / (scores.map Prod.snd).sum * (1 - bPct)))
          = fun p : ℤ × ℚ => p.2 / (scores.map Prod.snd).sum * (1 - bPct) := rfl
      rw [this, sum_map_div_mul, div_self (ne_of_gt hpos), one_mul]
    have hsumw : w.sum = 1 - bPct := by
      rw [pySetAll_sum _ _ _ (by rw [hentkeys]; exact hnodup) hrange_ent hw,
        hw0sum, hmid, hvals]
      ring
    have hrenorm : renormalize w = .weights (w.map (fun x => x / w.sum)) := by
      apply renormalize_div
      · rw [hsumw]
        rw [abs_of_nonpos (by linarith)]
        linarith
      · rw [hsumw]
        linarith
    refine ⟨w.map (fun x => x / w.sum), hrenorm, by rw [List.length_map, hwlen, hw0len], ?_, ?_⟩
    · intro p hp
      have hplt : p.1.toNat < w.length := by
        have := hkeys p hp
        rw [hwlen, hw0len]
        omega
      rw [getD_map_int _ _ _ hplt]
      have hwp : w.getD p.1.toNat 0 = p.2 / (scores.map Prod.snd).sum * (1 - bPct) := by
        apply pySetAll_getD_mem _ _ _ (by rw [hentkeys]; exact hnodup) hrange_ent hw
        rw [List.mem_map]
        exact ⟨p, hp, rfl⟩
      rw [hwp, hsumw]
      rw [mul_div_assoc]
      rw [div_self (by linarith : (1:ℚ) - bPct ≠ 0), mul_one]
    · intro j hj hjnot
      have hjlt : j < w.length := by
        rw [hwlen, hw0len]
        exact hj
      rw [getD_map_int _ _ _ hjlt]
      have hne2 : ∀ q ∈ scores.map
          (fun p => (p.1, p.2 / (scores.map Prod.snd).sum * (1 - bPct))), q.1 ≠ (j : ℤ) := by
        intro q hq
        rw [List.mem_map] at hq
        obtain ⟨p, hp, rfl⟩ := hq
        intro he
        apply hjnot
        rw [List.mem_map]
        exact ⟨p, hp, he⟩
      have hjb : (j:ℤ) ≠ bUid := by
        intro he
        exact hjnot (he ▸ hmem)
      rw [pySetAll_getD_not_mem _ _ _ _
        (fun q hq => (hrange_ent q hq).1) hne2 hw]
      rw [getD_set_ne _ _ _ _ (by omega), getD_replicate_zero, zero_div]

end SetWeightsLemmas

/-- The allocation exactly as claim C4 words it: after the per-uid loop the
burn share is ADDED onto the burn entry (w[BURN_UID] += BURN, so a scored
burn uid keeps both shares), followed by the same renormalization.  This
definition follows the claim text and exists only to be compared with the
code embedding setWeightsVector. -/
def setWeightsVectorSpec (bUid : ℤ) (bPct : ℚ) (N : ℕ) (scores : List (ℤ × ℚ)) :
    AllocResult :=
  let base : List ℚ := List.replicate N 0
  if scores.isEmpty || scores.any (fun p => p.2 < 0)
      || decide ((scores.map Prod.snd).sum = 0) then
    match pySet base bUid 1 with
    | none => .indexError
    | some w => renormalize w
  else
    let total : ℚ := (scores.map Prod.snd).sum
    match pySetAll base (scores.map (fun p => (p.1, p.2 / total * (1 - bPct)))) with
    | none => .indexError
    | some w0 =>
      match pySet w0 bUid (w0.getD bUid.toNat 0 + bPct) with
      | none => .indexError
      | some w => renormalize w

/-- Projection used to observe a single entry of an allocation result. -/
def allocEntry (r : AllocResult) (j : ℕ) : Option ℚ :=
  match r with
  | .weights w => some (w.getD j 0)
  | _ => none

theorem allocEntry_weights (w : List ℚ) (j : ℕ) :
    allocEntry (.weights w) j = some (w.getD j 0) := rfl

theorem pySetAll_cons (l : List ℚ) (u : ℤ) (v : ℚ) (rest : List (ℤ × ℚ))
    (l2 : List ℚ) (h : pySet l u v = some l2) :
    pySetAll l ((u, v) :: rest) = pySetAll l2 rest := by
  show (match pySet l u v with
        | none => none
        | some l3 => pySetAll l3 rest) = pySetAll l2 rest
  rw [h]

theorem pySetAll_nil (l : List ℚ) : pySetAll l [] = some l := rfl

theorem setWeightsVectorSpec_valid_eq (bUid : ℤ) (bPct : ℚ) (N : ℕ)
    (scores : List (ℤ × ℚ)) (w0 w : List ℚ)
    (hcond : (scores.isEmpty || scores.any (fun p => p.2 < 0)
        || decide ((scores.map Prod.snd).sum = 0)) = false)
    (hall : pySetAll (List.replicate N 0)
        (scores.map (fun p => (p.1, p.2 / (scores.map Prod.snd).sum * (1 - bPct))))
      = some w0)
    (hset : pySet w0 bUid (w0.getD bUid.toNat 0 + bPct) = some w) :
    setWeightsVectorSpec bUid bPct N scores = renormalize w := by
  unfold setWeightsVectorSpec
  rw [if_neg (by rw [hcond]; decide)]
  simp only [hall, hset]

/-- Claim C4 counterexample: with the default burn parameters (BURN_UID 251,
BURN 0.99), N = 252 and the burn uid itself among the scored uids
(scores 0 -> 1.0 and 251 -> 1.0), the code assigns the burn entry and then
overwrites it in the per-uid loop, so renormalization yields weight 1/2 for
uid 251; under the claim text (w[BURN_UID] += BURN) uid 251 would get
0.995.  The two allocations differ. -/
theorem setWeights_burn_counterexample :
    allocEntry (setWeightsVector 251 (99/100) 252 [((0:ℤ), (1:ℚ)), (251, 1)]) 251
      = some (1/2) ∧
    allocEntry (setWeightsVectorSpec 251 (99/100) 252 [((0:ℤ), (1:ℚ)), (251, 1)]) 251
      = some (199/200) ∧
    ((1:ℚ)/2) ≠ 199/200 := by
  have hT : (([((0:ℤ), (1:ℚ)), (251, 1)].map Prod.snd).sum) = 2 := by
    simp
    norm_num
  have hval : validateScores [((0:ℤ), (1:ℚ)), (251, 1)] = true := by
    rw [validateScores_true_iff]
    refine ⟨by simp, ?_, by rw [hT]; norm_num⟩
    intro p hp
    rcases List.mem_cons.mp hp with rfl | hp2
    · norm_num
    · rcases List.mem_cons.mp hp2 with rfl | hp3
      · norm_num
      · simp at hp3
  have hmap : ([((0:ℤ), (1:ℚ)), (251, 1)].map
      (fun p => (p.1, p.2 / (([((0:ℤ), (1:ℚ)), (251, 1)].map Prod.snd).sum)
        * (1 - 99/100))))
      = [((0:ℤ), (1:ℚ)/200), (251, 1/200)] := by
    rw [hT]
    norm_num
  have hbase : (List.replicate 252 (0:ℚ)).length = 252 := List.length_replicate _ _
  -- the code-side vector before renormalization
  have hset0 : pySet (List.replicate 252 (0:ℚ)) 251 (99/100)
      = some ((List.replicate 252 (0:ℚ)).set 251 (99/100)) := by
    have := pySet_inrange (List.replicate 252 (0:ℚ)) 251 (99/100)
      (by norm_num) (by rw [hbase]; norm_num)
    exact this
  have hw0len : ((List.replicate 252 (0:ℚ)).set 251 (99/100)).length = 252 := by
    rw [List.length_set, hbase]
  have hsA : pySet ((List.replicate 252 (0:ℚ)).set 251 (99/100)) 0 ((1:ℚ)/200)
      = some (((List.replicate 252 (0:ℚ)).set 251 (99/100)).set 0 ((1:ℚ)/200)) := by
    have := pySet_inrange ((List.replicate 252 (0:ℚ)).set 251 (99/100)) 0 ((1:ℚ)/200)
      (by norm_num) (by rw [hw0len]; norm_num)
    exact this
  have hsAlen : (((List.replicate 252 (0:ℚ)).set 251 (99/100)).set 0 ((1:ℚ)/200)).length
      = 252 := by
    rw [List.length_set, hw0len]
  have hsB : pySet (((List.replicate 252 (0:ℚ)).set 251 (99/100)).set 0 ((1:ℚ)/200))
      251 ((1:ℚ)/200)
      = some ((((List.replicate 252 (0:ℚ)).set 251 (99/100)).set 0 ((1:ℚ)/200)).set
          251 ((1:ℚ)/200)) := by
    have := pySet_inrange
      (((List.replicate 252 (0:ℚ)).set 251 (99/100)).set 0 ((1:ℚ)/200)) 251 ((1:ℚ)/200)
      (by norm_num) (by rw [hsAlen]; norm_num)
    exact this
  have hall : pySetAll ((List.replicate 252 (0:ℚ)).set 251 (99/100))
      ([((0:ℤ), (1:ℚ)), (251, 1)].map
        (fun p => (p.1, p.2 / (([((0:ℤ), (1:ℚ)), (251, 1)].map Prod.snd).sum)
          * (1 - 99/100))))
      = some ((((List.replicate 252 (0:ℚ)).set 251 (99/100)).set 0 ((1:ℚ)/200)).set
          251 ((1:ℚ)/200)) := by
    rw [hmap, pySetAll_cons _ _ _ _ _ hsA, pySetAll_cons _ _ _ _ _ hsB, pySetAll_nil]
  -- the code-side sum is 1/100, renormalization divides by it
  have hsum1 : ((((List.replicate 252 (0:ℚ)).set 251 (99/100)).set 0 ((1:ℚ)/200)).set
      251 ((1:ℚ)/200)).sum = 1/100 := by
    rw [list_sum_set _ _ _ (by rw [hsAlen]; norm_num)]
    rw [getD_set_ne _ _ _ _ (by norm_num)]
    rw [getD_set_self _ _ _ (by rw [hbase]; norm_num)]
    rw [list_sum_set _ _ _ (by rw [hw0len]; norm_num)]
    rw [getD_set_ne _ _ _ _ (by norm_num), getD_replicate_zero]
    rw [list_sum_set _ _ _ (by rw [hbase]; norm_num)]
    rw [getD_replicate_zero, sum_replicate_zero]
    norm_num
  refine ⟨?_, ?_, by norm_num⟩
  · rw [setWeightsVector_valid_pos_eq _ _ _ _ _ _ hval (by norm_num) (by rw [hT]; norm_num)
      hset0 hall]
    rw [renormalize_div
      (by
        rw [hsum1]
        have habs : |(1:ℚ)/100 - 1| = 99/100 := by
          rw [abs_of_nonpos (by norm_num)]
          norm_num
        rw [habs]
        norm_num)
      (by rw [hsum1]; norm_num)]
    rw [allocEntry_weights]
    rw [getD_map_int _ _ _ (by rw [List.length_set, hsAlen]; norm_num)]
    rw [hsum1]
    rw [getD_set_self _ _ _ (by rw [hsAlen]; norm_num)]
    norm_num
  · -- spec side: the burn share is added on top of the scored share
    have hsA2 : pySet (List.replicate 252 (0:ℚ)) 0 ((1:ℚ)/200)
        = some ((List.replicate 252 (0:ℚ)).set 0 ((1:ℚ)/200)) := by
      have := pySet_inrange (List.replicate 252 (0:ℚ)) 0 ((1:ℚ)/200)
        (by norm_num) (by rw [hbase]; norm_num)
      exact this
    have hsA2len : ((List.replicate 252 (0:ℚ)).set 0 ((1:ℚ)/200)).length = 252 := by
      rw [List.length_set, hbase]
    have hsB2 : pySet ((List.replicate 252 (0:ℚ)).set 0 ((1:ℚ)/200)) 251 ((1:ℚ)/200)
        = some (((List.replicate 252 (0:ℚ)).set 0 ((1:ℚ)/200)).set 251 ((1:ℚ)/200)) := by
      have := pySet_inrange ((List.replicate 252 (0:ℚ)).set 0 ((1:ℚ)/200)) 251 ((1:ℚ)/200)
        (by norm_num) (by rw [hsA2len]; norm_num)
      exact this
    have hall2 : pySetAll (List.replicate 252 (0:ℚ))
        ([((0:ℤ), (1:ℚ)), (251, 1)].map
          (fun p => (p.1, p.2 / (([((0:ℤ), (1:ℚ)), (251, 1)].map Prod.snd).sum)
            * (1 - 99/100))))
        = some (((List.replicate 252 (0:ℚ)).set 0 ((1:ℚ)/200)).set 251 ((1:ℚ)/200)) := by
      rw [hmap, pySetAll_cons _ _ _ _ _ hsA2, pySetAll_cons _ _ _ _ _ hsB2, pySetAll_nil]
    have hsB2len : (((List.replicate 252 (0:ℚ)).set 0 ((1:ℚ)/200)).set 251 ((1:ℚ)/200)).length
        = 252 := by
      rw [List.length_set, hsA2len]
    have hgd : (((List.replicate 252 (0:ℚ)).set 0 ((1:ℚ)/200)).set 251 ((1:ℚ)/200)).getD
        ((251:ℤ)).toNat 0 = (1:ℚ)/200 := by
      rw [show ((251:ℤ)).toNat = 251 from rfl]
      exact getD_set_self _ _ _ (by rw [hsA2len]; norm_num)
    have hsC2 : pySet (((List.replicate 252 (0:ℚ)).set 0 ((1:ℚ)/200)).set 251 ((1:ℚ)/200))
        251 ((((List.replicate 252 (0:ℚ)).set 0 ((1:ℚ)/200)).set 251 ((1:ℚ)/200)).getD
          ((251:ℤ)).toNat 0 + 99/100)
        = some ((((List.replicate 252 (0:ℚ)).set 0 ((1:ℚ)/200)).set 251 ((1:ℚ)/200)).set
            251 ((199:ℚ)/200)) := by
      rw [hgd]
      have h199 : (1:ℚ)/200 + 99/100 = 199/200 := by norm_num
      rw [h199]
      exact pySet_inrange
        (((List.replicate 252 (0:ℚ)).set 0 ((1:ℚ)/200)).set 251 ((1:ℚ)/200))
        251 ((199:ℚ)/200)
        (by norm_num) (by rw [hsB2len]; norm_num)
    have hcond : (([((0:ℤ), (1:ℚ)), (251, 1)].isEmpty
        || [((0:ℤ), (1:ℚ)), (251, 1)].any (fun p => p.2 < 0)
        || decide ((([((0:ℤ), (1:ℚ)), (251, 1)].map Prod.snd).sum = 0))) = false) := by
      rw [hT]
      norm_num
    rw [setWeightsVectorSpec_valid_eq _ _ _ _ _ _ hcond hall2 hsC2]
    have hsum2 : ((((List.replicate 252 (0:ℚ)).set 0 ((1:ℚ)/200)).set 251 ((1:ℚ)/200)).set
        251 ((199:ℚ)/200)).sum = 1 := by
      rw [list_sum_set _ _ _ (by rw [hsB2len]; norm_num)]
      rw [getD_set_self _ _ _ (by rw [hsA2len]; norm_num)]
      rw [list_sum_set _ _ _ (by rw [hsA2len]; norm_num)]
      rw [getD_set_ne _ _ _ _ (by norm_num), getD_replicate_zero]
      rw [list_sum_set _ _ _ (by rw [hbase]; norm_num)]
      rw [getD_replicate_zero, sum_replicate_zero]
      norm_num
    rw [renormalize_sum_one hsum2]
    rw [allocEntry_weights]
    rw [getD_set_self _ _ _ (by rw [List.length_set, hsA2len]; norm_num)]

theorem renormalize_ne_indexError (w : List ℚ) : renormalize w ≠ .indexError := by
  unfold renormalize
  dsimp only
  split
  · split
    · exact fun h => AllocResult.noConfusion h
    · exact fun h => AllocResult.noConfusion h
  · exact fun h => AllocResult.noConfusion h

/-- Claim C10 (amended): the weight list built by set_weights has length N
and is written at BURN_UID and, when the scores validate, at every scored
uid.  If BURN_UID is at least N the assignment raises IndexError on every
path and nothing is submitted; if the scores validate, BURN_UID is in
range and some scored uid is at least N, the per-uid loop raises
IndexError and nothing is submitted; when BURN_UID and all scored uids are
below N no IndexError is raised.  (When the score map fails validation the
per-uid loop is never reached, so an out-of-range scored uid alone does
not raise: see the counterexample.) -/
theorem setWeights_indexError (bUid : ℤ) (bPct : ℚ) (N : ℕ)
    (scores : List (ℤ × ℚ)) (hb : 0 < bPct) :
    ((N:ℤ) ≤ bUid → setWeightsVector bUid bPct N scores = .indexError) ∧
    (validateScores scores = true → 0 ≤ bUid → bUid < N →
      (∀ p ∈ scores, 0 ≤ p.1) → (∃ p ∈ scores, (N:ℤ) ≤ p.1) →
      setWeightsVector bUid bPct N scores = .indexError) ∧
    (0 ≤ bUid → bUid < N → (∀ p ∈ scores, 0 ≤ p.1 ∧ p.1 < N) →
      setWeightsVector bUid bPct N scores ≠ .indexError) := by
  have hbase : (List.replicate N (0:ℚ)).length = N := List.length_replicate _ _
  refine ⟨?_, ?_, ?_⟩
  · -- burn uid out of range: IndexError on both validation outcomes
    intro hoob
    have hnone : ∀ v : ℚ, pySet (List.replicate N 0) bUid v = none := by
      intro v
      apply pySet_oob
      rw [hbase]
      exact hoob
    cases hval : validateScores scores with
    | false => exact setWeightsVector_invalid_idx _ _ _ _ hval hb (hnone 1)
    | true =>
      have hpos := ((validateScores_true_iff scores).mp hval).2.2
      exact setWeightsVector_valid_pos_idx0 _ _ _ _ hval hb hpos (hnone bPct)
  · -- valid scores with an out-of-range scored uid: the loop raises
    intro hval hu0 hu1 hnn hoob
    have hpos := ((validateScores_true_iff scores).mp hval).2.2
    have hset : pySet (List.replicate N 0) bUid bPct
        = some ((List.replicate N 0).set bUid.toNat bPct) :=
      pySet_inrange _ _ _ hu0 (by omega)
    apply setWeightsVector_valid_pos_idx _ _ _ _ _ hval hb hpos hset
    apply pySetAll_none_of_oob
    · intro q hq
      rw [List.mem_map] at hq
      obtain ⟨p, hp, rfl⟩ := hq
      exact hnn p hp
    · obtain ⟨p, hp, hpN⟩ := hoob
      refine ⟨(p.1, p.2 / (scores.map Prod.snd).sum * (1 - bPct)), ?_, ?_⟩
      · rw [List.mem_map]
        exact ⟨p, hp, rfl⟩
      · rw [List.length_set, hbase]
        exact hpN
  · -- all indices in range: no IndexError on any path
    intro hu0 hu1 hkeys
    cases hval : validateScores scores with
    | false =>
      rw [setWeightsVector_invalid_eq _ _ _ _ _ hval hb
        (pySet_inrange _ _ _ hu0 (by omega))]
      exact renormalize_ne_indexError _
    | true =>
      have hpos := ((validateScores_true_iff scores).mp hval).2.2
      have hset : pySet (List.replicate N 0) bUid bPct
          = some ((List.replicate N 0).set bUid.toNat bPct) :=
        pySet_inrange _ _ _ hu0 (by omega)
      have hrange : ∀ q : ℤ × ℚ, q ∈ scores.map
          (fun p => (p.1, p.2 / (scores.map Prod.snd).sum * (1 - bPct))) →
          0 ≤ q.1 ∧ q.1 < ((((List.replicate N (0:ℚ)).set bUid.toNat bPct)).length : ℤ) := by
        intro q hq
        rw [List.mem_map] at hq
        obtain ⟨p, hp, rfl⟩ := hq
        have := hkeys p hp
        rw [List.length_set, hbase]
        exact this
      obtain ⟨w, hall, _⟩ := pySetAll_ok _ _ hrange
      rw [setWeightsVector_valid_pos_eq _ _ _ _ _ _ hval hb hpos hset hall]
      exact renormalize_ne_indexError _

/-- Claim C10 counterexample: with N = 3, BURN_UID = 2 in range and the
score map containing the out-of-range uid 5 with a NEGATIVE score, the map
fails validation, the per-uid loop is never reached, and the burn fallback
runs and submits weights: no IndexError despite a scored uid at or above
N, contradicting the claim that any scored uid >= N raises IndexError
with no submission. -/
theorem setWeights_indexError_counterexample :
    setWeightsVector 2 (99/100) 3 [((5:ℤ), (-1:ℚ))]
      = .weights ((List.replicate 3 (0:ℚ)).set 2 1) ∧
    setWeightsVector 2 (99/100) 3 [((5:ℤ), (-1:ℚ))] ≠ .indexError ∧
    ((3:ℤ) ≤ 5) := by
  have hinv : validateScores [((5:ℤ), (-1:ℚ))] = false := by
    unfold validateScores
    rw [if_neg (by simp)]
    rw [if_pos]
    rw [List.any_eq_true]
    exact ⟨((5:ℤ), (-1:ℚ)), by simp, by norm_num⟩
  have hset : pySet (List.replicate 3 (0:ℚ)) 2 1
      = some ((List.replicate 3 (0:ℚ)).set 2 1) := by
    have := pySet_inrange (List.replicate 3 (0:ℚ)) 2 1 (by norm_num)
      (by rw [List.length_replicate]; norm_num)
    exact this
  have heq : setWeightsVector 2 (99/100) 3 [((5:ℤ), (-1:ℚ))]
      = .weights ((List.replicate 3 (0:ℚ)).set 2 1) := by
    rw [setWeightsVector_invalid_eq _ _ _ _ _ hinv (by norm_num) hset]
    apply renormalize_sum_one
    rw [list_sum_set _ _ _ (by rw [List.length_replicate]; norm_num)]
    rw [getD_replicate_zero, sum_replicate_zero]
    ring
  refine ⟨heq, ?_, by norm_num⟩
  rw [heq]
  exact fun h => AllocResult.noConfusion h

/-! ## validator/scoring.py: calculate_scores -/

/-- One stored query outcome row as read back by calculate_scores. -/
structure ResultRow where
  uid : ℤ
  success : Bool
  exact_match : Bool
  partCorrectness : ℚ
  gridSimilarity : ℚ
  efficiencyScore : ℚ

/-- The per-miner aggregate dict of calculate_scores. -/
structure MinerStats where
  count : ℕ
  exact_matches : ℕ
  partSum : ℚ
  similaritySum : ℚ
  efficiencySum : ℚ
  successfulResponses : ℕ

def initStats : MinerStats := ⟨0, 0, 0, 0, 0, 0⟩

/-- One iteration of the aggregation loop of calculate_scores: every row
increments count, and only rows with success contribute to the sums. -/
def updateStats (s : MinerStats) (r : ResultRow) : MinerStats :=
  let s1 : MinerStats := { s with count := s.count + 1 }
  if r.success then
    { s1 with
      successfulResponses := s1.successfulResponses + 1
      exact_matches := s1.exact_matches + (if r.exact_match then 1 else 0)
      partSum := s1.partSum + r.partCorrectness
      similaritySum := s1.similaritySum + r.gridSimilarity
      efficiencySum := s1.efficiencySum + r.efficiencyScore }
  else s1

/-- Aggregated stats of one miner: fold over the rows carrying its uid, in
window order, mirroring the dict grouping in calculate_scores. -/
def statsFor (rows : List ResultRow) (uid : ℤ) : MinerStats :=
  (rows.filter (fun r => r.uid = uid)).foldl updateStats initStats

/-- The per-miner score of calculate_scores; none models the miner being
excluded when it has fewer than min_responses rows. -/
def minerScore (minResponses : ℕ) (s : MinerStats) : Option ℚ :=
  if s.count < minResponses then none
  else if s.successfulResponses = 0 then some 0
  else
    let ER : ℚ := (s.exact_matches : ℚ) / (s.count : ℚ)
    let PA : ℚ := s.partSum / (s.successfulResponses : ℚ)
    let SA : ℚ := s.similaritySum / (s.successfulResponses : ℚ)
    let EA : ℚ := s.efficiencySum / (s.successfulResponses : ℚ)
    if ER = 0 ∧ PA < 9/10 ∧ SA < 9/10 then some 0
    else if ER = 0 ∧ (PA < 9/10 ∨ SA < 9/10) then
      some ((4/10 / (9/10)) * ER + (3/10 / (9/10)) * PA + (2/10 / (9/10)) * SA)
    else
      some ((4/10) * ER + (3/10) * PA + (2/10) * SA + (1/10) * EA)

theorem foldStats_go (rows : List ResultRow) (s : MinerStats) :
    (rows.foldl updateStats s).count = s.count + rows.length ∧
    (rows.foldl updateStats s).successfulResponses
      = s.successfulResponses + (rows.filter (fun r => r.success)).length ∧
    (rows.foldl updateStats s).exact_matches
      = s.exact_matches + (rows.filter (fun r => r.success && r.exact_match)).length ∧
    (rows.foldl updateStats s).partSum
      = s.partSum + ((rows.filter (fun r => r.success)).map (fun r => r.partCorrectness)).sum ∧
    (rows.foldl updateStats s).similaritySum
      = s.similaritySum + ((rows.filter (fun r => r.success)).map (fun r => r.gridSimilarity)).sum ∧
    (rows.foldl updateStats s).efficiencySum
      = s.efficiencySum + ((rows.filter (fun r => r.success)).map (fun r => r.efficiencyScore)).sum := by
  induction rows generalizing s with
  | nil => simp
  | cons r rs ih =>
    have step := ih (updateStats s r)
    obtain ⟨h1, h2, h3, h4, h5, h6⟩ := step
    rw [List.foldl_cons] at *
    cases hs : r.success with
    | false =>
      have hupd : updateStats s r = { s with count := s.count + 1 } := by
        unfold updateStats
        rw [hs]
        rfl
      rw [hupd] at h1 h2 h3 h4 h5 h6 ⊢
      refine ⟨?_, ?_, ?_, ?_, ?_, ?_⟩ <;>
        simp [h1, h2, h3, h4, h5, h6, List.filter_cons, hs, Nat.add_assoc] <;>
        omega
    | true =>
      have hupd : updateStats s r =
          { count := s.count + 1
            exact_matches := s.exact_matches + (if r.exact_match then 1 else 0)
            partSum := s.partSum + r.partCorrectness
            similaritySum := s.similaritySum + r.gridSimilarity
            efficiencySum := s.efficiencySum + r.efficiencyScore
            successfulResponses := s.successfulResponses + 1 } := by
        unfold updateStats
        rw [hs]
        rfl
      rw [hupd] at h1 h2 h3 h4 h5 h6 ⊢
      refine ⟨?_, ?_, ?_, ?_, ?_, ?_⟩
      · rw [h1]
        simp only [List.length_cons]
        omega
      · rw [h2]
        simp [List.filter_cons, hs]
        omega
      · rw [h3]
        cases he : r.exact_match with
        | false => simp [List.filter_cons, hs, he]
        | true =>
          simp [List.filter_cons, hs, he]
          omega
      · rw [h4]
        simp [List.filter_cons, hs]
        ring
      · rw [h5]
        simp [List.filter_cons, hs]
        ring
      · rw [h6]
        simp [List.filter_cons, hs]
        ring

/-- Claim C5: aggregation and scoring regimes of calculate_scores.  Over
the window rows of one miner, every outcome contributes to count while
only success outcomes feed the sum fields; a miner with zero successful
responses scores 0; with ER = exactMatches/count and the averages divided
by successfulResponses, ER = 0 with both averages below 0.9 scores 0,
ER = 0 with at least one (but not both) below 0.9 scores
(0.4 ER + 0.3 PA + 0.2 SA)/0.9 with efficiency excluded, and every other
miner scores 0.4 ER + 0.3 PA + 0.2 SA + 0.1 EA. -/
theorem calculate_scores_regimes (rows : List ResultRow) (uid : ℤ) (minResponses : ℕ) :
    (statsFor rows uid).count = (rows.filter (fun r => r.uid = uid)).length ∧
    (statsFor rows uid).successfulResponses
      = ((rows.filter (fun r => r.uid = uid)).filter (fun r => r.success)).length ∧
    (statsFor rows uid).exact_matches
      = ((rows.filter (fun r => r.uid = uid)).filter
          (fun r => r.success && r.exact_match)).length ∧
    (statsFor rows uid).partSum
      = (((rows.filter (fun r => r.uid = uid)).filter (fun r => r.success)).map
          (fun r => r.partCorrectness)).sum ∧
    (statsFor rows uid).similaritySum
      = (((rows.filter (fun r => r.uid = uid)).filter (fun r => r.success)).map
          (fun r => r.gridSimilarity)).sum ∧
    (statsFor rows uid).efficiencySum
      = (((rows.filter (fun r => r.uid = uid)).filter (fun r => r.success)).map
          (fun r => r.efficiencyScore)).sum ∧
    (minResponses ≤ (statsFor rows uid).count →
      ((statsFor rows uid).successfulResponses = 0 →
        minerScore minResponses (statsFor rows uid) = some 0) ∧
      ((statsFor rows uid).successfulResponses ≠ 0 →
        (((statsFor rows uid).exact_matches : ℚ) / ((statsFor rows uid).count : ℚ) = 0 ∧
            (statsFor rows uid).partSum / ((statsFor rows uid).successfulResponses : ℚ) < 9/10 ∧
            (statsFor rows uid).similaritySum / ((statsFor rows uid).successfulResponses : ℚ) < 9/10 →
          minerScore minResponses (statsFor rows uid) = some 0) ∧
        (((statsFor rows uid).exact_matches : ℚ) / ((statsFor rows uid).count : ℚ) = 0 ∧
            ((statsFor rows uid).partSum / ((statsFor rows uid).successfulResponses : ℚ) < 9/10 ∨
             (statsFor rows uid).similaritySum / ((statsFor rows uid).successfulResponses : ℚ) < 9/10) ∧
            ¬((statsFor rows uid).partSum / ((statsFor rows uid).successfulResponses : ℚ) < 9/10 ∧
              (statsFor rows uid).similaritySum / ((statsFor rows uid).successfulResponses : ℚ) < 9/10) →
          minerScore minResponses (statsFor rows uid) = some
            (((4:ℚ)/10 * (((statsFor rows uid).exact_matches : ℚ) / ((statsFor rows uid).count : ℚ))
              + 3/10 * ((statsFor rows uid).partSum / ((statsFor rows uid).successfulResponses : ℚ))
              + 2/10 * ((statsFor rows uid).similaritySum / ((statsFor rows uid).successfulResponses : ℚ)))
              / (9/10))) ∧
        (¬(((statsFor rows uid).exact_matches : ℚ) / ((statsFor rows uid).count : ℚ) = 0 ∧
            ((statsFor rows uid).partSum / ((statsFor rows uid).successfulResponses : ℚ) < 9/10 ∨
             (statsFor rows uid).similaritySum / ((statsFor rows uid).successfulResponses : ℚ) < 9/10)) →
          minerScore minResponses (statsFor rows uid) = some
            ((4:ℚ)/10 * (((statsFor rows uid).exact_matches : ℚ) / ((statsFor rows uid).count : ℚ))
              + 3/10 * ((statsFor rows uid).partSum / ((statsFor rows uid).successfulResponses : ℚ))
              + 2/10 * ((statsFor rows uid).similaritySum / ((statsFor rows uid).successfulResponses : ℚ))
              + 1/10 * ((statsFor rows uid).efficiencySum / ((statsFor rows uid).successfulResponses : ℚ)))))) := by
  obtain ⟨h1, h2, h3, h4, h5, h6⟩ :=
    foldStats_go (rows.filter (fun r => r.uid = uid)) initStats
  have hs1 : (statsFor rows uid).count = (rows.filter (fun r => r.uid = uid)).length := by
    unfold statsFor
    rw [h1]
    show (0:ℕ) + _ = _
    rw [Nat.zero_add]
  have hs2 : (statsFor rows uid).successfulResponses
      = ((rows.filter (fun r => r.uid = uid)).filter (fun r => r.success)).length := by
    unfold statsFor
    rw [h2]
    show (0:ℕ) + _ = _
    rw [Nat.zero_add]
  have hs3 : (statsFor rows uid).exact_matches
      = ((rows.filter (fun r => r.uid = uid)).filter
          (fun r => r.success && r.exact_match)).length := by
    unfold statsFor
    rw [h3]
    show (0:ℕ) + _ = _
    rw [Nat.zero_add]
  have hs4 : (statsFor rows uid).partSum
      = (((rows.filter (fun r => r.uid = uid)).filter (fun r => r.success)).map
          (fun r => r.partCorrectness)).sum := by
    unfold statsFor
    rw [h4]
    show (0:ℚ) + _ = _
    rw [zero_add]
  have hs5 : (statsFor rows uid).similaritySum
      = (((rows.filter (fun r => r.uid = uid)).filter (fun r => r.success)).map
          (fun r => r.gridSimilarity)).sum := by
    unfold statsFor
    rw [h5]
    show (0:ℚ) + _ = _
    rw [zero_add]
  have hs6 : (statsFor rows uid).efficiencySum
      = (((rows.filter (fun r => r.uid = uid)).filter (fun r => r.success)).map
          (fun r => r.efficiencyScore)).sum := by
    unfold statsFor
    rw [h6]
    show (0:ℚ) + _ = _
    rw [zero_add]
  refine ⟨hs1, hs2, hs3, hs4, hs5, hs6, ?_⟩
  intro hmin
  have hms : ∀ s : MinerStats, minerScore minResponses s =
      (if s.count < minResponses then none
       else if s.successfulResponses = 0 then some 0
       else if (s.exact_matches : ℚ) / (s.count : ℚ) = 0 ∧
           s.partSum / (s.successfulResponses : ℚ) < 9/10 ∧
           s.similaritySum / (s.successfulResponses : ℚ) < 9/10 then some 0
       else if (s.exact_matches : ℚ) / (s.count : ℚ) = 0 ∧
           (s.partSum / (s.successfulResponses : ℚ) < 9/10 ∨
            s.similaritySum / (s.successfulResponses : ℚ) < 9/10) then
         some ((4/10 / (9/10)) * ((s.exact_matches : ℚ) / (s.count : ℚ))
           + (3/10 / (9/10)) * (s.partSum / (s.successfulResponses : ℚ))
           + (2/10 / (9/10)) * (s.similaritySum / (s.successfulResponses : ℚ)))
       else
         some ((4/10) * ((s.exact_matches : ℚ) / (s.count : ℚ))
           + (3/10) * (s.partSum / (s.successfulResponses : ℚ))
           + (2/10) * (s.similaritySum / (s.successfulResponses : ℚ))
           + (1/10) * (s.efficiencySum / (s.successfulResponses : ℚ)))) :=
    fun s => rfl
  rw [hms, if_neg (by omega)]
  constructor
  · intro hz
    rw [if_pos hz]
  · intro hnz
    rw [if_neg hnz]
    refine ⟨?_, ?_, ?_⟩
    · intro hpoor
      rw [if_pos hpoor]
    · intro ⟨her, hone, hnboth⟩
      rw [if_neg (fun hc => hnboth ⟨hc.2.1, hc.2.2⟩), if_pos ⟨her, hone⟩]
      congr 1
      ring
    · intro hnot
      rw [if_neg (fun hc => hnot ⟨hc.1, Or.inl hc.2.1⟩), if_neg hnot]

/-! ## common/chain.py: rate-limit gate and commit pipeline -/

/-- Embedding of common/chain.py can_set_weights: true when the blocks
since the last update reach the minimum interval; a missing (None) rate
limit always allows setting. -/
def canSetWeights (blocksSinceUpdate : ℤ) (minInterval : Option ℤ) : Bool :=
  match minInterval with
  | none => true
  | some m => blocksSinceUpdate ≥ m

/-- Outcome of common/chain.py set_node_weights.  invalidInput: the
quantization ValueError propagates; gated: the rate-limit check fails and
False is returned; missingWallet: commit-reveal without wallet returns
False; revealSubmitted floats r: the commit-reveal submission is handed
the float vector and the ledger answers r (exceptions in that path are
caught and count as r = false); noSubmission: commit-reveal is disabled
and the function falls through, returning None without any submission. -/
inductive CommitOutcome
  | invalidInput
  | gated
  | missingWallet
  | revealSubmitted (floats : List ℚ) (ok : Bool)
  | noSubmission
  deriving DecidableEq

/-- Embedding of common/chain.py set_node_weights. -/
def setNodeWeights (node_ids : List ℤ) (node_weights : List ℚ)
    (blocksSinceUpdate : ℤ) (minInterval : Option ℤ)
    (commitRevealEnabled : Bool) (hasWallet : Bool) (ledgerResult : Bool) :
    CommitOutcome :=
  match normalizeAndQuantizeWeights node_ids node_weights with
  | .error _ => .invalidInput
  | .ok (_, ticks) =>
    if !(canSetWeights blocksSinceUpdate minInterval) then .gated
    else if commitRevealEnabled then
      if !hasWallet then .missingWallet
      else
        let total : ℤ := ticks.sum
        let floats : List ℚ :=
          if total > 0 then ticks.map (fun t => (t : ℚ) / (total : ℚ))
          else ticks.map (fun t => (t : ℚ))
        .revealSubmitted floats ledgerResult
    else .noSubmission

/-- Embedding of ChainInterface.set_weights: a True result from
set_node_weights becomes "success", every other return value makes it
raise SubstrateRequestException; the quantization ValueError propagates
as its own exception. -/
def chainSetWeights (node_ids : List ℤ) (node_weights : List ℚ)
    (blocksSinceUpdate : ℤ) (minInterval : Option ℤ)
    (commitRevealEnabled : Bool) (hasWallet : Bool) (ledgerResult : Bool) :
    Except String String :=
  match setNodeWeights node_ids node_weights blocksSinceUpdate minInterval
      commitRevealEnabled hasWallet ledgerResult with
  | .revealSubmitted _ true => .ok "success"
  | .invalidInput => .error "ValueError"
  | _ => .error "Failed to set weights"

/-- Embedding of the try/except around chain.set_weights in
validator/scoring.py set_weights: every raised exception is caught, logged
and False is returned; only the "success" result returns True. -/
def scoringSubmit (node_ids : List ℤ) (node_weights : List ℚ)
    (blocksSinceUpdate : ℤ) (minInterval : Option ℤ)
    (commitRevealEnabled : Bool) (hasWallet : Bool) (ledgerResult : Bool) :
    Bool :=
  match chainSetWeights node_ids node_weights blocksSinceUpdate minInterval
      commitRevealEnabled hasWallet ledgerResult with
  | .ok s => s == "success"
  | .error _ => false

theorem quantize_single_one :
    normalizeAndQuantizeWeights [(0:ℤ)] [(1:ℚ)] = .ok ([(0:ℤ)], [(65535:ℤ)]) := by
  have htick : quantTick ([(1:ℚ)].sum) 1 = 65535 := by
    have hsum : ([(1:ℚ)].sum) = 1 := by simp
    rw [hsum]
    unfold quantTick
    rw [if_pos (by norm_num : (1:ℚ) > 0)]
    have harg : (1:ℚ) * ((U16_MAX : ℚ) / 1) = ((65535:ℤ) : ℚ) := by
      norm_num [U16_MAX]
    rw [harg]
    unfold pyRound
    rw [Int.floor_intCast]
    show (if ((((65535:ℤ):ℚ)) - ((65535:ℤ):ℚ) < 1/2 : Prop) then ((65535:ℤ)) else _) = _
    rw [if_pos (by norm_num)]
  rw [normalizeAndQuantize_eq _ _ (by simp) (by simp) (by norm_num)
    ⟨1, by simp, by norm_num⟩]
  have hmap : ([(1:ℚ)].map (quantTick ([(1:ℚ)].sum))) = [(65535:ℤ)] := by
    rw [List.map_cons, List.map_nil, htick]
  rw [hmap]
  have hdz : U16_MAX - ([(65535:ℤ)].sum) = 0 := by
    simp [U16_MAX]
  rw [if_neg (by rw [hdz]; exact fun h => h rfl)]

/-- Claim C6: the weight commit is gated exactly on
blocksSinceLastCommit < minCommitInterval: at min - 1 the gate refuses, at
min it allows; a gated call makes set_node_weights return False (outcome
gated, before any submission), and the scoring-level wrapper catches the
resulting exception and returns False to its caller instead of raising. -/
theorem commit_rate_limit_gate (ids : List ℤ) (ws : List ℚ) (blocks m : ℤ)
    (cr hw lr : Bool)
    (hq : ∃ pair, normalizeAndQuantizeWeights ids ws = .ok pair) :
    canSetWeights (m - 1) (some m) = false ∧
    canSetWeights m (some m) = true ∧
    (blocks < m →
      setNodeWeights ids ws blocks (some m) cr hw lr = .gated ∧
      scoringSubmit ids ws blocks (some m) cr hw lr = false) ∧
    (m ≤ blocks →
      setNodeWeights ids ws blocks (some m) cr hw lr ≠ .gated) := by
  obtain ⟨pair, hpair⟩ := hq
  have hgate : ∀ b : ℤ, b < m → canSetWeights b (some m) = false := by
    intro b hb
    unfold canSetWeights
    simp only [decide_eq_false_iff_not]
    omega
  have hgate2 : ∀ b : ℤ, m ≤ b → canSetWeights b (some m) = true := by
    intro b hb
    unfold canSetWeights
    simp only [decide_eq_true_eq]
    omega
  refine ⟨hgate _ (by omega), hgate2 _ (by omega), ?_, ?_⟩
  · intro hblk
    have hsnw : setNodeWeights ids ws blocks (some m) cr hw lr = .gated := by
      unfold setNodeWeights
      rw [hpair]
      show (if !(canSetWeights blocks (some m)) then CommitOutcome.gated else _)
        = CommitOutcome.gated
      rw [hgate _ hblk]
      rfl
    refine ⟨hsnw, ?_⟩
    unfold scoringSubmit chainSetWeights
    rw [hsnw]
  · intro hblk
    unfold setNodeWeights
    rw [hpair]
    show (if !(canSetWeights blocks (some m)) then CommitOutcome.gated else _) ≠ _
    rw [hgate2 _ hblk]
    show (if false = true then CommitOutcome.gated else _) ≠ _
    rw [if_neg (by decide)]
    cases cr with
    | false => exact fun h => CommitOutcome.noConfusion h
    | true =>
      cases hw with
      | false =>
        show (if (!true) = true then CommitOutcome.missingWallet else _) ≠ _
        rw [if_neg (by decide)]
        exact fun h => CommitOutcome.noConfusion h
      | true =>
        show (if (!true) = true then CommitOutcome.missingWallet else _) ≠ _
        rw [if_neg (by decide)]
        exact fun h => CommitOutcome.noConfusion h

/-- Claim C3 (code bug): evaluated at a concrete valid input (one uid with
weight 1, rate limit passed).  With commit-reveal enabled the quantized
ticks are reconverted to a float vector summing to 1 and handed to the
reveal submission, as the claim says.  With commit-reveal disabled,
however, set_node_weights falls through without any submission and
returns None (outcome noSubmission); ChainInterface.set_weights then
raises "Failed to set weights" and the scoring wrapper returns False: no
weight submission takes place on the disabled path, contradicting the
claim. -/
theorem commitReveal_paths :
    (setNodeWeights [(0:ℤ)] [(1:ℚ)] 100 (some 10) true true true
        = .revealSubmitted [(1:ℚ)] true ∧ ([(1:ℚ)]).sum = 1) ∧
    setNodeWeights [(0:ℤ)] [(1:ℚ)] 100 (some 10) false true true = .noSubmission ∧
    chainSetWeights [(0:ℤ)] [(1:ℚ)] 100 (some 10) false true true
      = .error "Failed to set weights" ∧
    scoringSubmit [(0:ℤ)] [(1:ℚ)] 100 (some 10) false true true = false := by
  have hnos : setNodeWeights [(0:ℤ)] [(1:ℚ)] 100 (some 10) false true true
      = .noSubmission := by
    unfold setNodeWeights
    rw [quantize_single_one]
    rw [show canSetWeights 100 (some 10) = true from by decide]
    rfl
  have hchain : chainSetWeights [(0:ℤ)] [(1:ℚ)] 100 (some 10) false true true
      = .error "Failed to set weights" := by
    unfold chainSetWeights
    rw [hnos]
  refine ⟨⟨?_, by simp⟩, hnos, hchain, ?_⟩
  · unfold setNodeWeights
    rw [quantize_single_one]
    rw [show canSetWeights 100 (some 10) = true from by decide]
    show (if (!true) = true then _ else _) = _
    rw [if_neg (by decide)]
    show (if true = true then _ else _) = _
    rw [if_pos rfl]
    show (if (!true) = true then _ else _) = _
    rw [if_neg (by decide)]
    show CommitOutcome.revealSubmitted
      (if ([(65535:ℤ)].sum) > 0
       then [(65535:ℤ)].map (fun t => (t:ℚ) / ((([(65535:ℤ)].sum) : ℤ):ℚ))
       else [(65535:ℤ)].map (fun t => (t:ℚ))) true = _
    rw [show ([(65535:ℤ)].sum) = 65535 from by simp]
    rw [if_pos (by norm_num : (65535:ℤ) > 0)]
    congr 1
    simp
  · unfold scoringSubmit
    rw [hchain]

/-! ## validator/query.py: grid metrics -/

/-- A grid as received over the wire: a list of rows of integers.  Nothing
forces the rows to have equal lengths. -/
abbrev Grid := List (List ℤ)

/-- Python cell access grid[i][j] for nonnegative indices; none models the
raised IndexError. -/
def getCell (g : Grid) (i j : ℕ) : Option ℤ :=
  match g.get? i with
  | none => none
  | some row => row.get? j

/-- The double generator of calculate_grid_similarity: counts the matching
cells over i < rows, j < cols; none models an IndexError raised by an
out-of-range access anywhere in the iteration space. -/
def matchCount (g1 g2 : Grid) (rows cols : ℕ) : Option ℕ :=
  if ∀ i < rows, ∀ j < cols, (getCell g1 i j).isSome ∧ (getCell g2 i j).isSome then
    some (((List.range rows).map (fun i =>
      ((List.range cols).filter (fun j => getCell g1 i j = getCell g2 i j)).length)).sum)
  else none

/-- Embedding of validator/query.py calculate_grid_similarity; the error
case models an uncaught IndexError (possible only on ragged rows). -/
def calculate_grid_similarity (grid1 grid2 : Grid) : Except Unit ℚ :=
  if grid1.isEmpty || grid2.isEmpty then .ok 0
  else if grid1.length ≠ grid2.length
      ∨ (grid1.headD []).length ≠ (grid2.headD []).length then .ok 0
  else
    let total_cells : ℕ := grid1.length * (grid1.headD []).length
    if total_cells = 0 then .ok 0
    else
      match matchCount grid1 grid2 grid1.length (grid1.headD []).length with
      | none => .error ()
      | some matching => .ok ((matching : ℚ) / (total_cells : ℚ))

/-- The set of colors occurring in a grid (the union of the row sets). -/
def colorSet (g : Grid) : Finset ℤ := g.join.toFinset

/-- The color-distribution component of calculate_partial_correctness. -/
def colorComponent (predicted expected : Grid) : ℚ :=
  if colorSet expected = ∅ then 0
  else (2/10) * (((colorSet predicted ∩ colorSet expected).card : ℚ)
    / ((colorSet expected).card : ℚ))

/-- Embedding of validator/query.py calculate_partial_correctness; the
error case models an uncaught IndexError inside the grid-similarity term
(only reachable when the code-visible shapes match). -/
def calculate_partial_correctness (predicted expected : Grid) : Except Unit ℚ :=
  if predicted.isEmpty || expected.isEmpty then .ok 0
  else if h : predicted.length = expected.length
      ∧ (predicted.headD []).length = (expected.headD []).length then
    match calculate_grid_similarity predicted expected with
    | .error e => .error e
    | .ok gsim => .ok (min 1 ((3/10) + (5/10) * gsim + colorComponent predicted expected))
  else
    .ok (min 1 (colorComponent predicted expected))

/-- Embedding of validator/query.py calculate_efficiency_score. -/
def calculate_efficiency_score (response_time : ℚ) (max_time : ℚ := 30) : ℚ :=
  if response_time ≥ max_time then 0
  else 1 - response_time / max_time

/-- The metrics dict built in the completed branch of _poll_task_result. -/
structure Metrics where
  exact_match : Bool
  partCorrectness : ℚ
  gridSimilarity : ℚ
  efficiencyScore : ℚ
  deriving DecidableEq

/-- Embedding of the completed branch of _poll_task_result after the
output-format guard: exact match, partial correctness, grid similarity and
efficiency are computed in order; an IndexError raised inside the metric
computation propagates out of the poll loop, whose except clause catches
only timeout, client and JSON-decode errors. -/
def completedMetrics (predicted expected : Grid) (rt : ℚ) : Except Unit Metrics :=
  match calculate_partial_correctness predicted expected with
  | .error e => .error e
  | .ok pc =>
    match calculate_grid_similarity predicted expected with
    | .error e => .error e
    | .ok gs =>
      .ok ⟨decide (predicted = expected), pc, gs, calculate_efficiency_score rt⟩

/-- A grid is rectangular with r rows and c columns. -/
def Rect (g : Grid) (r c : ℕ) : Prop :=
  g.length = r ∧ ∀ row ∈ g, row.length = c

section GridLemmas

theorem get?_eq_getD {α : Type} (d : α) :
    ∀ (l : List α) (i : ℕ), i < l.length → l.get? i = some (l.getD i d)
  | [], i, h => by simp at h
  | a :: as, 0, _ => rfl
  | a :: as, i + 1, h => by
    show as.get? i = some (as.getD i d)
    exact get?_eq_getD d as i (by simpa using h)

theorem getD_mem_of_lt {α : Type} (d : α) :
    ∀ (l : List α) (i : ℕ), i < l.length → l.getD i d ∈ l
  | [], i, h => by simp at h
  | a :: as, 0, _ => List.mem_cons_self _ _
  | a :: as, i + 1, h => by
    have := getD_mem_of_lt d as i (by simpa using h)
    simpa using Or.inr this

theorem headD_mem {α : Type} (d : α) (l : List α) (h : l ≠ []) : l.headD d ∈ l := by
  cases l with
  | nil => exact absurd rfl h
  | cons a as => exact List.mem_cons_self _ _

theorem getCell_rect {g : Grid} {r c : ℕ} (h : Rect g r c) {i j : ℕ}
    (hi : i < r) (hj : j < c) :
    getCell g i j = some ((g.getD i []).getD j 0) := by
  obtain ⟨hlen, hrows⟩ := h
  unfold getCell
  rw [get?_eq_getD [] g i (by omega)]
  have hrow : (g.getD i []).length = c :=
    hrows _ (getD_mem_of_lt [] g i (by omega))
  exact get?_eq_getD 0 _ j (by omega)

theorem matchCount_rect {P E : Grid} {r c : ℕ} (hP : Rect P r c) (hE : Rect E r c) :
    matchCount P E r c = some (((List.range r).map (fun i =>
      ((List.range c).filter
        (fun j => (P.getD i []).getD j 0 = (E.getD i []).getD j 0)).length)).sum) := by
  unfold matchCount
  rw [if_pos]
  · congr 1
    apply congrArg
    apply List.map_congr_left
    intro i hi
    rw [List.mem_range] at hi
    apply congrArg
    apply List.filter_congr
    intro j hj
    rw [List.mem_range] at hj
    rw [getCell_rect hP hi hj, getCell_rect hE hi hj]
    simp
  · intro i hi j hj
    rw [getCell_rect hP hi hj, getCell_rect hE hi hj]
    exact ⟨rfl, rfl⟩

theorem colorComponent_le_one (P E : Grid) : colorComponent P E ≤ 1 := by
  unfold colorComponent
  split
  · norm_num
  · rename_i hne
    have hpos : 0 < ((colorSet E).card : ℚ) := by
      have : (colorSet E).Nonempty := Finset.nonempty_iff_ne_empty.mpr hne
      exact_mod_cast Finset.card_pos.mpr this
    have hle : ((colorSet P ∩ colorSet E).card : ℚ) ≤ ((colorSet E).card : ℚ) := by
      exact_mod_cast Finset.card_le_card (Finset.inter_subset_right)
    have hdiv : ((colorSet P ∩ colorSet E).card : ℚ) / ((colorSet E).card : ℚ) ≤ 1 :=
      (div_le_one hpos).mpr hle
    have hnn : (0:ℚ) ≤ ((colorSet P ∩ colorSet E).card : ℚ) / ((colorSet E).card : ℚ) := by
      positivity
    linarith

end GridLemmas

/-- Claim C8: grid metrics on non-empty rectangular grids.  When the
shapes differ, gridSimilarity is 0 and partialCorrectness is only the
color-overlap component 0.2 (|colors(P) inter colors(E)| / |colors(E)|),
equal to 0 when colors(E) is empty; gridSimilarity is 0 when either grid
is empty; when the shapes match, gridSimilarity is the fraction of cells
on which the two grids agree. -/
theorem grid_metrics_on_rect (P E : Grid) (rp cp re ce : ℕ)
    (hP : Rect P rp cp) (hE : Rect E re ce) (hrp : 0 < rp) (hre : 0 < re) :
    ((rp, cp) ≠ (re, ce) →
      calculate_grid_similarity P E = .ok 0 ∧
      calculate_partial_correctness P E
        = .ok (if colorSet E = ∅ then 0
               else (2/10) * (((colorSet P ∩ colorSet E).card : ℚ)
                 / ((colorSet E).card : ℚ)))) ∧
    ((rp, cp) = (re, ce) →
      calculate_grid_similarity P E
        = .ok ((((List.range rp).map (fun i =>
            ((List.range cp).filter
              (fun j => (P.getD i []).getD j 0 = (E.getD i []).getD j 0)).length)).sum : ℚ)
          / ((rp * cp : ℕ) : ℚ))) ∧
    (∀ G : Grid, calculate_grid_similarity [] G = .ok 0 ∧
      calculate_grid_similarity G [] = .ok 0) := by
  have hPne : P ≠ [] := by
    intro h
    rw [h] at hP
    have := hP.1
    simp at this
    omega
  have hEne : E ≠ [] := by
    intro h
    rw [h] at hE
    have := hE.1
    simp at this
    omega
  have hPempty : P.isEmpty = false := by
    rw [List.isEmpty_eq_false_iff_exists_mem]
    cases P with
    | nil => exact absurd rfl hPne
    | cons a as => exact ⟨a, List.mem_cons_self _ _⟩
  have hEempty : E.isEmpty = false := by
    rw [List.isEmpty_eq_false_iff_exists_mem]
    cases E with
    | nil => exact absurd rfl hEne
    | cons a as => exact ⟨a, List.mem_cons_self _ _⟩
  have hPhead : (P.headD []).length = cp := hP.2 _ (headD_mem [] P hPne)
  have hEhead : (E.headD []).length = ce := hE.2 _ (headD_mem [] E hEne)
  refine ⟨?_, ?_, ?_⟩
  · intro hne
    have hor : rp ≠ re ∨ cp ≠ ce := by
      by_contra hc
      push_neg at hc
      exact hne (by rw [hc.1, hc.2])
    constructor
    · unfold calculate_grid_similarity
      rw [if_neg (by rw [hPempty, hEempty]; decide)]
      rw [if_pos]
      rw [hP.1, hE.1, hPhead, hEhead]
      exact hor
    · unfold calculate_partial_correctness
      rw [if_neg (by rw [hPempty, hEempty]; decide)]
      rw [dif_neg]
      · congr 1
        by_cases hc : colorSet E = ∅
        · rw [if_pos hc]
          unfold colorComponent
          rw [if_pos hc]
          norm_num
        · rw [if_neg hc]
          have h1 := colorComponent_le_one P E
          unfold colorComponent at h1 ⊢
          rw [if_neg hc] at h1 ⊢
          exact min_eq_right h1
      · rw [hP.1, hE.1, hPhead, hEhead]
        intro hc
        rcases hor with h | h
        · exact h hc.1
        · exact h hc.2
  · intro heq
    have hr : rp = re := congrArg Prod.fst heq
    have hc : cp = ce := congrArg Prod.snd heq
    subst hr
    subst hc
    unfold calculate_grid_similarity
    rw [if_neg (by rw [hPempty, hEempty]; decide)]
    rw [if_neg (by rw [hP.1, hE.1, hPhead, hEhead]; push_neg; exact ⟨rfl, rfl⟩)]
    show (if P.length * (P.headD []).length = 0 then Except.ok 0
          else _) = _
    rw [hP.1, hPhead]
    by_cases hcz : cp = 0
    · rw [if_pos (by rw [hcz]; ring)]
      congr 1
      rw [hcz]
      have hzero : ((List.range rp).map (fun i =>
          ((List.range 0).filter
            (fun j => (P.getD i []).getD j 0 = (E.getD i []).getD j 0)).length)).sum = 0 := by
        apply List.sum_eq_zero
        intro x hx
        rw [List.mem_map] at hx
        obtain ⟨i, _, rfl⟩ := hx
        simp
      rw [hzero]
      norm_num
    · rw [if_neg (by positivity)]
      rw [matchCount_rect hP hE]
  · intro G
    constructor
    · unfold calculate_grid_similarity
      rw [if_pos]
      rfl
    · unfold calculate_grid_similarity
      rw [if_pos]
      cases G with
      | nil => rfl
      | cons a as => rfl

/-- Claim C9: a completed worker response whose grid has ragged rows CAN
raise an uncaught IndexError, contrary to the claim.  Whenever the
code-visible shape of the predicted grid matches the (rectangular)
expected grid but some predicted row is shorter than the first row, the
metric computation of the completed branch raises IndexError, which the
poll loop does not catch (its except clause lists only timeout, client
and JSON-decode errors), so the attempt is not recorded as failed and the
exception propagates out of the query round. -/
theorem completed_metrics_ragged (P E : Grid) (re ce : ℕ) (rt : ℚ)
    (hE : Rect E re ce) (hre : 0 < re) (hce : 0 < ce)
    (hlen : P.length = re) (hhead : (P.headD []).length = ce)
    (hragged : ∃ i < re, (P.getD i []).length < ce) :
    completedMetrics P E rt = .error () := by
  have hPne : P ≠ [] := by
    intro h
    rw [h] at hlen
    simp at hlen
    omega
  have hEne : E ≠ [] := by
    intro h
    rw [h] at hE
    have := hE.1
    simp at this
    omega
  have hPempty : P.isEmpty = false := by
    rw [List.isEmpty_eq_false_iff_exists_mem]
    cases P with
    | nil => exact absurd rfl hPne
    | cons a as => exact ⟨a, List.mem_cons_self _ _⟩
  have hEempty : E.isEmpty = false := by
    rw [List.isEmpty_eq_false_iff_exists_mem]
    cases E with
    | nil => exact absurd rfl hEne
    | cons a as => exact ⟨a, List.mem_cons_self _ _⟩
  have hEhead : (E.headD []).length = ce := hE.2 _ (headD_mem [] E hEne)
  have hmc : matchCount P E re ce = none := by
    unfold matchCount
    rw [if_neg]
    intro hall
    obtain ⟨i, hi, hshort⟩ := hragged
    have hsome := (hall i hi ((P.getD i []).length) (by omega)).1
    have hcell : getCell P i ((P.getD i []).length) = none := by
      unfold getCell
      rw [get?_eq_getD [] P i (by omega)]
      show (P.getD i []).get? ((P.getD i []).length) = none
      exact List.get?_len_le (le_refl _)
    rw [hcell] at hsome
    simp at hsome
  have hsim : calculate_grid_similarity P E = .error () := by
    unfold calculate_grid_similarity
    rw [if_neg (by rw [hPempty, hEempty]; decide)]
    rw [if_neg (by rw [hlen, hE.1, hhead, hEhead]; push_neg; exact ⟨rfl, rfl⟩)]
    show (if P.length * (P.headD []).length = 0 then Except.ok 0 else _) = _
    rw [hlen, hhead]
    rw [if_neg (Nat.mul_ne_zero (by omega) (by omega))]
    rw [hmc]
  have hpc : calculate_partial_correctness P E = .error () := by
    unfold calculate_partial_correctness
    rw [if_neg (by rw [hPempty, hEempty]; decide)]
    rw [dif_pos ⟨by rw [hlen, hE.1], by rw [hhead, hEhead]⟩]
    rw [hsim]
  unfold completedMetrics
  rw [hpc]

/-- Witness for claim C9 at the concrete failing input: predicted grid
[[1,2],[3]] (second row short) against expected [[1,2],[3,4]]; the
completed-branch metric computation raises. -/
theorem completed_metrics_ragged_witness :
    completedMetrics [[1, 2], [3]] [[1, 2], [3, 4]] 1 = .error () :=
  completed_metrics_ragged [[1, 2], [3]] [[1, 2], [3, 4]] 2 2 1
    ⟨by decide, by decide⟩ (by decide) (by decide) (by decide) (by decide)
    ⟨1, by decide, by decide⟩

/-! ## common/epistula.py and the request payloads of validator/query.py -/

/-- A parsed JSON value.  Integer and non-integer numbers are separate, as
json.loads distinguishes int from float. -/
inductive JVal where
  | null
  | bool (b : Bool)
  | int (n : ℤ)
  | float (q : ℚ)
  | str (s : String)
  | arr (elems : List JVal)
  | obj (fields : List (String × JVal))

/-- The problem dict handed to _submit_task_to_miner; test_output is the
ground truth, present in the dict but never placed in the payload. -/
structure ProblemData where
  id : JVal
  train_examples : JVal
  test_input : JVal
  test_output : JVal
  num_train_examples : JVal

/-- query_data as built by _submit_task_to_miner. -/
def buildQueryData (p : ProblemData) : JVal :=
  .obj [("problem_id", p.id), ("train_examples", p.train_examples),
        ("test_input", p.test_input), ("num_train", p.num_train_examples)]

/-- check_data as built for every poll in _poll_task_result. -/
def buildCheckData (task_id : JVal) : JVal :=
  .obj [("task_id", task_id)]

/-- The body dict of Epistula.create_request. -/
def createRequestBody (ss58_address receiver_hotkey : String)
    (data : JVal) (nonce version : ℤ) : JVal :=
  .obj [("data", data), ("nonce", .int nonce), ("signed_by", .str ss58_address),
        ("signed_for", .str receiver_hotkey), ("version", .int version)]

/-- The keys of a JSON object (empty for non-objects). -/
def jKeys : JVal → List String
  | .obj fields => fields.map Prod.fst
  | _ => []

/-- Python subscription body[key]; none models the TypeError (non-dict) or
KeyError (absent key) raised otherwise. -/
def jGet (v : JVal) (key : String) : Option JVal :=
  match v with
  | .obj fields => fields.lookup key
  | _ => none

/-- Claim C1 (amended): every task-submission request the Dispatcher signs
carries a data object whose keys are exactly problem_id, train_examples,
test_input and num_train, and every poll (check-task) request carries
exactly the key task_id; in neither request does a test_output key occur
in the data object.  The ground-truth test_output field of the problem is
never placed in any payload. -/
theorem dispatcher_payload_keys (p : ProblemData) (task_id : JVal)
    (ss58 recv : String) (nonce version : ℤ) :
    jGet (createRequestBody ss58 recv (buildQueryData p) nonce version) "data"
      = some (buildQueryData p) ∧
    jKeys (buildQueryData p)
      = ["problem_id", "train_examples", "test_input", "num_train"] ∧
    "test_output" ∉ jKeys (buildQueryData p) ∧
    jGet (createRequestBody ss58 recv (buildCheckData task_id) nonce version) "data"
      = some (buildCheckData task_id) ∧
    jKeys (buildCheckData task_id) = ["task_id"] ∧
    "test_output" ∉ jKeys (buildCheckData task_id) := by
  refine ⟨rfl, rfl, ?_, rfl, rfl, ?_⟩
  · show "test_output" ∉ ["problem_id", "train_examples", "test_input", "num_train"]
    decide
  · show "test_output" ∉ ["task_id"]
    decide

/-- Claim C1 counterexample: the Dispatcher also builds and serializes one
signed request per poll attempt, whose data object has the single key
task_id, not the four keys of the claim. -/
theorem dispatcher_payload_counterexample :
    jGet (createRequestBody "addr" "recv" (buildCheckData (.str "t")) 0 1) "data"
      = some (buildCheckData (.str "t")) ∧
    jKeys (buildCheckData (.str "t")) = ["task_id"] ∧
    jKeys (buildCheckData (.str "t"))
      ≠ ["problem_id", "train_examples", "test_input", "num_train"] := by
  exact ⟨rfl, rfl, by decide⟩

/-- Substring containment on character lists, mirroring the Python
membership test for strings. -/
def strContains (needle : List Char) : List Char → Bool
  | [] => needle.isEmpty
  | c :: t => needle.isPrefixOf (c :: t) || strContains needle t

/-- The Python membership test (key in body) on a parsed JSON value:
objects test key membership, arrays test element equality with the
string, strings test substring containment; other types raise TypeError,
modelled as none. -/
def pyContains (v : JVal) (key : String) : Option Bool :=
  match v with
  | .obj fields => some (fields.any (fun f => f.1 == key))
  | .arr elems => some (elems.any (fun e =>
      match e with
      | .str s => s == key
      | _ => false))
  | .str s => some (strContains key.toList s.toList)
  | _ => none

/-- isinstance(nonce, int) with Python semantics: a bool is an int with
value 0 or 1. -/
def jIntValue : JVal → Option ℤ
  | .int n => some n
  | .bool b => some (if b then 1 else 0)
  | _ => none

/-- One hexadecimal digit. -/
def hexDigit (c : Char) : Option ℕ :=
  let n := c.toNat
  if 48 ≤ n ∧ n ≤ 57 then some (n - 48)
  else if 97 ≤ n ∧ n ≤ 102 then some (n - 87)
  else if 65 ≤ n ∧ n ≤ 70 then some (n - 55)
  else none

/-- bytes.fromhex: pairs of hex digits, spaces between bytes skipped;
none models the raised ValueError. -/
def hexDecodeAux : List Char → Option (List ℕ)
  | [] => some []
  | c :: rest =>
    if c = ' ' then hexDecodeAux rest
    else
      match rest with
      | [] => none
      | c2 :: rest2 =>
        match hexDigit c, hexDigit c2 with
        | some hi, some lo =>
          match hexDecodeAux rest2 with
          | some bs => some ((16 * hi + lo) :: bs)
          | none => none
        | _, _ => none

def hexDecode (s : String) : Option (List ℕ) := hexDecodeAux s.toList

/-- The result of Epistula.verify_request: one distinct value per failing
condition (the code returns (False, message, None) tuples, never letting
an exception escape; verificationError is the blanket except branch). -/
inductive VerifyResult where
  | ok (body : JVal)
  | missingField (f : String)
  | badSignatureFormat
  | badNonceType
  | stale
  | signatureInvalid
  | malformedJson
  | verificationError

/-- The required-fields loop of verify_request, in code order. -/
def checkFields (body : JVal) : List String → Option VerifyResult
  | [] => none
  | f :: rest =>
    match pyContains body f with
    | none => some .verificationError
    | some false => some (.missingField f)
    | some true => checkFields body rest

/-- Embedding of common/epistula.py Epistula.verify_request over the
json.loads outcome of the body (none models JSONDecodeError), the
signature header, the current time and the allowed age.  canon stands for
json.dumps(body, sort_keys=True) and verifyWith for the construction of
Keypair(ss58_address=sender) followed by keypair.verify(message,
sig_bytes); verifyWith returning none models an exception inside that
crypto layer, caught by the blanket except. -/
def verifyRequest (canon : JVal → String)
    (verifyWith : JVal → String → List ℕ → Option Bool)
    (parsed : Option JVal) (signature : String) (currentTimeNs : ℤ)
    (maxAgeNs : ℤ := 5000000000) : VerifyResult :=
  match parsed with
  | none => .malformedJson
  | some body =>
    match checkFields body ["data", "nonce", "signed_by", "signed_for"] with
    | some r => r
    | none =>
      if signature = "" ∨ ¬ (signature.startsWith "0x" = true) then .badSignatureFormat
      else
        match jGet body "nonce" with
        | none => .verificationError
        | some nv =>
          match jIntValue nv with
          | none => .badNonceType
          | some nonce =>
            if nonce + maxAgeNs < currentTimeNs then .stale
            else
              match jGet body "signed_by" with
              | none => .verificationError
              | some sender =>
                match hexDecode (signature.drop 2) with
                | none => .verificationError
                | some sigBytes =>
                  match verifyWith sender (canon body) sigBytes with
                  | none => .verificationError
                  | some false => .signatureInvalid
                  | some true => .ok body

section EpistulaLemmas

theorem jGet_eq_lookup (fields : List (String × JVal)) (key : String) :
    jGet (.obj fields) key = fields.lookup key := rfl

theorem checkFields_none_of_all (fields : List (String × JVal)) :
    ∀ fs : List String, (∀ f ∈ fs, pyContains (.obj fields) f = some true) →
      checkFields (.obj fields) fs = none
  | [], _ => rfl
  | f :: rest, h => by
    have hf := h f (List.mem_cons_self _ _)
    simp only [checkFields, hf]
    exact checkFields_none_of_all fields rest
      (fun g hg => h g (List.mem_cons_of_mem _ hg))

theorem checkFields_all_of_none (body : JVal) :
    ∀ fs : List String, checkFields body fs = none →
      ∀ f ∈ fs, pyContains body f = some true
  | [], _, f, hf => by simp at hf
  | f0 :: rest, h, f, hf => by
    cases hc : pyContains body f0 with
    | none =>
      simp only [checkFields, hc] at h
      exact Option.noConfusion h
    | some b =>
      cases b with
      | false =>
        simp only [checkFields, hc] at h
        exact Option.noConfusion h
      | true =>
        simp only [checkFields, hc] at h
        rcases List.mem_cons.mp hf with rfl | hf2
        · exact hc
        · exact checkFields_all_of_none body rest h f hf2

theorem checkFields_some (body : JVal) :
    ∀ (fs : List String) (r : VerifyResult), checkFields body fs = some r →
      r = .verificationError ∨ ∃ f, r = .missingField f
  | [], r, h => by simp [checkFields] at h
  | f0 :: rest, r, h => by
    cases hc : pyContains body f0 with
    | none =>
      simp only [checkFields, hc] at h
      cases h
      exact Or.inl rfl
    | some b =>
      cases b with
      | false =>
        simp only [checkFields, hc] at h
        cases h
        exact Or.inr ⟨f0, rfl⟩
      | true =>
        simp only [checkFields, hc] at h
        exact checkFields_some body rest r h

theorem jGet_none_not_obj (body0 : JVal) (hno : ∀ fields, body0 ≠ .obj fields)
    (key : String) : jGet body0 key = none := by
  cases body0 with
  | obj fields => exact absurd rfl (hno fields)
  | null => rfl
  | bool b => rfl
  | int n => rfl
  | float q => rfl
  | str s => rfl
  | arr es => rfl

theorem verifyRequest_eval (canon : JVal → String)
    (verifyWith : JVal → String → List ℕ → Option Bool)
    (fields : List (String × JVal)) (sig : String) (now n : ℤ)
    (nv sender : JVal) (sigBytes : List ℕ)
    (hcheck : ∀ f ∈ ["data", "nonce", "signed_by", "signed_for"],
      pyContains (.obj fields) f = some true)
    (hfmt : ¬(sig = "" ∨ ¬ (sig.startsWith "0x" = true)))
    (hnv : fields.lookup "nonce" = some nv)
    (hint : jIntValue nv = some n)
    (hfresh : ¬ (n + 5000000000 < now))
    (hsender : fields.lookup "signed_by" = some sender)
    (hhex : hexDecode (sig.drop 2) = some sigBytes) :
    verifyRequest canon verifyWith (some (.obj fields)) sig now =
      (match verifyWith sender (canon (.obj fields)) sigBytes with
       | none => .verificationError
       | some false => .signatureInvalid
       | some true => .ok (.obj fields)) := by
  have h1 : checkFields (JVal.obj fields) ["data", "nonce", "signed_by", "signed_for"]
      = none := checkFields_none_of_all fields _ hcheck
  unfold verifyRequest
  simp only [h1, jGet_eq_lookup, hnv, hint, hsender, hhex]
  rw [if_neg hfmt, if_neg hfresh]

end EpistulaLemmas

/-- Claim C7: envelope verification.  Verification succeeds exactly when
the body parses as a JSON object containing data, nonce, signed_by and
signed_for, the nonce is an integer (in the Python sense, which admits
booleans), the request is no more than 5 000 000 000 ns old, the
signature starts with 0x, its hex payload decodes, and the signature
verifies against the canonical re-serialization of the parsed body.  A
nonce exactly 5 000 000 001 ns old is rejected as stale and one ns newer
is accepted.  Each failing condition yields its distinct error result
(malformed JSON, missing field, bad signature format, bad nonce type,
stale, invalid signature) rather than an exception. -/
theorem verify_request_spec (canon : JVal → String)
    (verifyWith : JVal → String → List ℕ → Option Bool)
    (parsed : Option JVal) (sig : String) (now : ℤ) :
    (∀ body : JVal,
      verifyRequest canon verifyWith parsed sig now = .ok body ↔
      ∃ fields : List (String × JVal),
        parsed = some (.obj fields) ∧ body = .obj fields ∧
        pyContains (.obj fields) "data" = some true ∧
        pyContains (.obj fields) "nonce" = some true ∧
        pyContains (.obj fields) "signed_by" = some true ∧
        pyContains (.obj fields) "signed_for" = some true ∧
        ¬ sig = "" ∧ sig.startsWith "0x" = true ∧
        (∃ (nv : JVal) (n : ℤ), fields.lookup "nonce" = some nv ∧
          jIntValue nv = some n ∧ now - n ≤ 5000000000) ∧
        (∃ (sender : JVal) (sigBytes : List ℕ),
          fields.lookup "signed_by" = some sender ∧
          hexDecode (sig.drop 2) = some sigBytes ∧
          verifyWith sender (canon (.obj fields)) sigBytes = some true)) ∧
    (parsed = none → verifyRequest canon verifyWith parsed sig now = .malformedJson) ∧
    (∀ fields : List (String × JVal), parsed = some (.obj fields) →
      pyContains (.obj fields) "data" = some false →
      verifyRequest canon verifyWith parsed sig now = .missingField "data") ∧
    (∀ fields nv sender sigBytes n, parsed = some (.obj fields) →
      (∀ f ∈ ["data", "nonce", "signed_by", "signed_for"],
        pyContains (.obj fields) f = some true) →
      ¬ sig = "" → sig.startsWith "0x" = true →
      fields.lookup "nonce" = some nv → jIntValue nv = some n →
      fields.lookup "signed_by" = some sender →
      hexDecode (sig.drop 2) = some sigBytes →
      verifyWith sender (canon (.obj fields)) sigBytes = some true →
      ((n = now - 5000000000 - 1 →
        verifyRequest canon verifyWith parsed sig now = .stale) ∧
       (n = now - 5000000000 →
        verifyRequest canon verifyWith parsed sig now = .ok (.obj fields)) ∧
       (now - n ≤ 5000000000 →
        verifyRequest canon verifyWith parsed sig now = .ok (.obj fields)))) ∧
    (∀ fields nv, parsed = some (.obj fields) →
      (∀ f ∈ ["data", "nonce", "signed_by", "signed_for"],
        pyContains (.obj fields) f = some true) →
      ¬ sig = "" → sig.startsWith "0x" = true →
      fields.lookup "nonce" = some nv → jIntValue nv = none →
      verifyRequest canon verifyWith parsed sig now = .badNonceType) ∧
    (∀ fields, parsed = some (.obj fields) →
      (∀ f ∈ ["data", "nonce", "signed_by", "signed_for"],
        pyContains (.obj fields) f = some true) →
      ¬ (sig.startsWith "0x" = true) →
      verifyRequest canon verifyWith parsed sig now = .badSignatureFormat) ∧
    (∀ fields nv sender sigBytes n, parsed = some (.obj fields) →
      (∀ f ∈ ["data", "nonce", "signed_by", "signed_for"],
        pyContains (.obj fields) f = some true) →
      ¬ sig = "" → sig.startsWith "0x" = true →
      fields.lookup "nonce" = some nv → jIntValue nv = some n →
      now - n ≤ 5000000000 →
      fields.lookup "signed_by" = some sender →
      hexDecode (sig.drop 2) = some sigBytes →
      verifyWith sender (canon (.obj fields)) sigBytes = some false →
      verifyRequest canon verifyWith parsed sig now = .signatureInvalid) := by
  have heval := verifyRequest_eval canon verifyWith
  refine ⟨?_, ?_, ?_, ?_, ?_, ?_, ?_⟩
  · -- the success iff
    intro body
    constructor
    · intro h
      cases hp : parsed with
      | none =>
        rw [hp] at h
        simp only [verifyRequest] at h
        exact VerifyResult.noConfusion h
      | some body0 =>
        rw [hp] at h
        cases hc : checkFields body0 ["data", "nonce", "signed_by", "signed_for"] with
        | some r =>
          simp only [verifyRequest, hc] at h
          subst h
          rcases checkFields_some body0 _ _ hc with h | ⟨f, h⟩ <;> cases h
        | none =>
          have hall := checkFields_all_of_none body0 _ hc
          by_cases hobj : ∃ fields, body0 = .obj fields
          · obtain ⟨fields, rfl⟩ := hobj
            simp only [verifyRequest, hc] at h
            by_cases hfmt : sig = "" ∨ ¬ (sig.startsWith "0x" = true)
            · rw [if_pos hfmt] at h
              cases h
            · rw [if_neg hfmt] at h
              push_neg at hfmt
              cases hnv : fields.lookup "nonce" with
              | none =>
                simp only [jGet_eq_lookup, hnv] at h
                exact VerifyResult.noConfusion h
              | some nv =>
                simp only [jGet_eq_lookup, hnv] at h
                cases hint : jIntValue nv with
                | none =>
                  simp only [hint] at h
                  exact VerifyResult.noConfusion h
                | some n =>
                  simp only [hint] at h
                  by_cases hstale : n + 5000000000 < now
                  · rw [if_pos hstale] at h
                    cases h
                  · rw [if_neg hstale] at h
                    cases hsender : fields.lookup "signed_by" with
                    | none =>
                      simp only [jGet_eq_lookup, hsender] at h
                      exact VerifyResult.noConfusion h
                    | some sender =>
                      simp only [jGet_eq_lookup, hsender] at h
                      cases hhex : hexDecode (sig.drop 2) with
                      | none =>
                        simp only [hhex] at h
                        exact VerifyResult.noConfusion h
                      | some sigBytes =>
                        simp only [hhex] at h
                        cases hvw : verifyWith sender (canon (.obj fields)) sigBytes with
                        | none =>
                          simp only [hvw] at h
                          exact VerifyResult.noConfusion h
                        | some ok =>
                          cases ok with
                          | false =>
                            simp only [hvw] at h
                            exact VerifyResult.noConfusion h
                          | true =>
                            simp only [hvw] at h
                            cases h
                            refine ⟨fields, rfl, rfl,
                              hall _ (by decide), hall _ (by decide),
                              hall _ (by decide), hall _ (by decide),
                              hfmt.1, hfmt.2, ⟨nv, n, hnv, hint, by omega⟩,
                              ⟨sender, sigBytes, hsender, rfl, hvw⟩⟩
          · push_neg at hobj
            have hjn := jGet_none_not_obj body0 hobj "nonce"
            simp only [verifyRequest, hc] at h
            by_cases hfmt : sig = "" ∨ ¬ (sig.startsWith "0x" = true)
            · rw [if_pos hfmt] at h
              cases h
            · rw [if_neg hfmt] at h
              simp only [hjn] at h
              exact VerifyResult.noConfusion h
    · rintro ⟨fields, hp, rfl, hd, hn, hsb, hsf, hne, hsw, ⟨nv, n, hnv, hint, hage⟩,
        ⟨sender, sigBytes, hsender, hhex, hvw⟩⟩
      rw [hp]
      rw [heval fields sig now n nv sender sigBytes
        (by
          intro f hf
          simp only [List.mem_cons, List.not_mem_nil, or_false] at hf
          rcases hf with rfl | rfl | rfl | rfl
          · exact hd
          · exact hn
          · exact hsb
          · exact hsf)
        (by
          intro hcon
          rcases hcon with h | h
          · exact hne h
          · exact h hsw)
        hnv hint (by omega) hsender hhex]
      rw [hvw]
  · intro hp
    rw [hp]
    simp only [verifyRequest]
  · intro fields hp hd
    rw [hp]
    simp only [verifyRequest, checkFields, hd]
  · intro fields nv sender sigBytes n hp hall hne hsw hnv hint hsender hhex hvw
    refine ⟨?_, ?_, ?_⟩
    · intro hn
      rw [hp]
      have h1 : checkFields (JVal.obj fields)
          ["data", "nonce", "signed_by", "signed_for"] = none :=
        checkFields_none_of_all fields _ hall
      unfold verifyRequest
      simp only [h1, jGet_eq_lookup, hnv, hint]
      rw [if_neg (by
        intro hcon
        rcases hcon with h | h
        · exact hne h
        · exact h hsw)]
      rw [if_pos (by omega)]
    · intro hn
      rw [hp]
      rw [heval fields sig now n nv sender sigBytes hall
        (by
          intro hcon
          rcases hcon with h | h
          · exact hne h
          · exact h hsw)
        hnv hint (by omega) hsender hhex]
      rw [hvw]
    · intro hage
      rw [hp]
      rw [heval fields sig now n nv sender sigBytes hall
        (by
          intro hcon
          rcases hcon with h | h
          · exact hne h
          · exact h hsw)
        hnv hint (by omega) hsender hhex]
      rw [hvw]
  · intro fields nv hp hall hne hsw hnv hint
    rw [hp]
    have h1 : checkFields (JVal.obj fields)
        ["data", "nonce", "signed_by", "signed_for"] = none :=
      checkFields_none_of_all fields _ hall
    unfold verifyRequest
    simp only [h1, jGet_eq_lookup, hnv, hint]
    rw [if_neg (by
      intro hcon
      rcases hcon with h | h
      · exact hne h
      · exact h hsw)]
  · intro fields hp hall hsw
    rw [hp]
    have h1 : checkFields (JVal.obj fields)
        ["data", "nonce", "signed_by", "signed_for"] = none :=
      checkFields_none_of_all fields _ hall
    unfold verifyRequest
    simp only [h1]
    rw [if_pos (Or.inr hsw)]
  · intro fields nv sender sigBytes n hp hall hne hsw hnv hint hage hsender hhex hvw
    rw [hp]
    rw [heval fields sig now n nv sender sigBytes hall
      (by
        intro hcon
        rcases hcon with h | h
        · exact hne h
        · exact h hsw)
      hnv hint (by omega) hsender hhex]
    rw [hvw]

/-- Witness for claim C2 at the concrete input ids = [0], ws = [1]: the
preconditions hold and the quantization invariants follow. -/
theorem commitWeights_quantization_witness :
    ∃ ticks : List ℤ,
      normalizeAndQuantizeWeights [(0:ℤ)] [(1:ℚ)] = .ok ([(0:ℤ)], ticks) ∧
      ticks.sum = U16_MAX ∧ (∀ t ∈ ticks, t ≤ U16_MAX) := by
  obtain ⟨t, ho, _, _, hsum, hle, _⟩ :=
    commitWeights_quantization [(0:ℤ)] [(1:ℚ)] rfl
      (by decide)
      (by
        intro w hw
        rw [List.mem_singleton] at hw
        rw [hw]
        norm_num)
      (by
        rw [show ([(1:ℚ)]).sum = 1 from by simp]
        norm_num)
  exact ⟨t, ho, hsum, hle⟩

/-- Witness for claim C4 at the concrete input bUid = 1, bPct = 1/2,
N = 2, scores = \x7b0: 1\x7d: the burn uid is unscored, so its entry is
exactly the burn percentage and the vector sums to 1. -/
theorem setWeights_burn_allocation_witness :
    ∃ w, setWeightsVector 1 (1/2) 2 [((0:ℤ), (1:ℚ))] = .weights w ∧
      w.length = 2 ∧ w.sum = 1 ∧ w.getD 1 0 = 1/2 := by
  have hval : validateScores [((0:ℤ), (1:ℚ))] = true := by
    apply (validateScores_true_iff _).mpr
    refine ⟨by simp, ?_, ?_⟩
    · intro p hp
      rw [List.mem_singleton] at hp
      rw [hp]
      norm_num
    · rw [show ([((0:ℤ), (1:ℚ))].map Prod.snd).sum = 1 from by simp]
      norm_num
  obtain ⟨w, hw, hlen, hsum, hburn, _, _⟩ :=
    (setWeights_burn_allocation 1 (1/2) 2 [((0:ℤ), (1:ℚ))] (by norm_num) (by norm_num)
      (by norm_num) (by norm_num)
      (by
        intro p hp
        rw [List.mem_singleton] at hp
        rw [hp]
        exact ⟨le_refl 0, by norm_num⟩)
      (by simp)).2.1 hval (by decide)
  exact ⟨w, hw, hlen, hsum, hburn⟩

/-- Witness for claim C6 at the concrete input: one uid with weight 1,
min interval 10, 5 blocks since the last commit.  The gate flips exactly
at the interval and the gated call returns False through the wrapper. -/
theorem commit_rate_limit_gate_witness :
    canSetWeights (10 - 1) (some 10) = false ∧
    canSetWeights 10 (some 10) = true ∧
    ((5:ℤ) < 10 →
      setNodeWeights [(0:ℤ)] [(1:ℚ)] 5 (some 10) true true true = .gated ∧
      scoringSubmit [(0:ℤ)] [(1:ℚ)] 5 (some 10) true true true = false) ∧
    ((10:ℤ) ≤ 5 →
      setNodeWeights [(0:ℤ)] [(1:ℚ)] 5 (some 10) true true true ≠ .gated) :=
  commit_rate_limit_gate [(0:ℤ)] [(1:ℚ)] 5 10 true true true
    ⟨([(0:ℤ)], [(65535:ℤ)]), quantize_single_one⟩

/-- Witness for claim C8 at the concrete input: predicted grid [[1]]
against expected grid [[2, 3]], whose shapes differ, so the similarity
is 0. -/
theorem grid_metrics_on_rect_witness :
    calculate_grid_similarity [[1]] [[2, 3]] = .ok 0 :=
  ((grid_metrics_on_rect [[1]] [[2, 3]] 1 1 1 2
    ⟨rfl, by
      intro row hr
      rw [List.mem_singleton] at hr
      rw [hr]
      rfl⟩
    ⟨rfl, by
      intro row hr
      rw [List.mem_singleton] at hr
      rw [hr]
      rfl⟩
    (by decide) (by decide)).1 (by decide)).1

/-- Witness for claim C10 at the concrete input bUid = 0, bPct = 1, N = 1,
scores = \x7b0: 1\x7d: all indices are in range, so no IndexError. -/
theorem setWeights_indexError_witness :
    setWeightsVector 0 1 1 [((0:ℤ), (1:ℚ))] ≠ .indexError :=
  (setWeights_indexError 0 1 1 [((0:ℤ), (1:ℚ))] (by norm_num)).2.2
    (by norm_num) (by norm_num)
    (by
      intro p hp
      rw [List.mem_singleton] at hp
      rw [hp]
      exact ⟨le_refl 0, by norm_num⟩)

end Hone
